import Mathlib

/-! Livox quick-start sample (`samples/livox_lidar_quick_start/main.cpp`)

A shallow embedding of the sample program: the two global `std::map`s, the
two SDK callbacks `WorkModeCallback` and `LidarInfoChangeCallback`, and
`main`.

* `uint32_t` handles and `uint8_t` modes are natural numbers; the program
  only stores and compares them, it does no arithmetic on them.
* `std::map<uint32_t, V>` is a list of key/value pairs kept in ascending key
  order (`StdMap`), with `operator[]`-assignment as `StdMap.assign`.
* A pointer argument is an `Option`: `none` is `nullptr`, `some x` points to
  `x`.
* The callbacks are given twice: as functions on the global state, run from
  entry to return (`WorkModeCallback`, `LidarInfoChangeCallback`), and as
  threads that take and release `g_lidar_mutex` (`stepCb`); `stepsCb_eq_run`
  shows that the two agree. `main` is a thread (`main`), and `step` lets
  `main` and the callback invocations of the SDK move in any order.
-/

namespace Livox

/-! ## `std::map<uint32_t, V>` -/

/-- Contents of a `std::map<uint32_t, V>`: the key/value pairs in iteration
order. -/
abbrev StdMap (V : Type) := List (Nat × V)

namespace StdMap

/-- Lookup as done by `std::map::find`: the value stored under `k`, if any. -/
def find {V : Type} : StdMap V → Nat → Option V
  | [], _ => none
  | (k', v) :: t, k => if k = k' then some v else find t k

/-- Assignment `m[k] = v`: overwrites the value of an existing key, otherwise
inserts the pair at its place in key order. -/
def assign {V : Type} : StdMap V → Nat → V → StdMap V
  | [], k, v => [(k, v)]
  | (k', v') :: t, k, v =>
    if k < k' then (k, v) :: (k', v') :: t
    else if k = k' then (k, v) :: t
    else (k', v') :: assign t k v

/-- Keys in iteration order. -/
def keys {V : Type} (m : StdMap V) : List Nat := m.map Prod.fst

/-- Test `m.empty()`. -/
def empty {V : Type} (m : StdMap V) : Bool := m.isEmpty

/-- Representation invariant of a `std::map`: keys strictly ascending, hence
no key occurs twice. -/
def Ordered {V : Type} (m : StdMap V) : Prop := (keys m).Pairwise (· < ·)

instance {V : Type} (m : StdMap V) : Decidable (Ordered m) := by
  unfold Ordered; infer_instance

end StdMap

/-! ## Types of the SDK headers used by the program -/

/-- The `LivoxLidarWorkMode` enumerators the program uses (the enumeration is
declared in `livox_lidar_def.h`). -/
inductive LivoxLidarWorkMode
  | kLivoxLidarNormal
  | kLivoxLidarWakeUp
  deriving DecidableEq, Repr

/-- The field of `LivoxLidarAsyncControlResponse` the program reads. -/
structure LivoxLidarAsyncControlResponse where
  ret_code : Nat
  deriving DecidableEq, Repr

/-- The field of `LivoxLidarInfo` the program reads: the serial number, as the
string `std::string(info->sn)` yields. -/
structure LivoxLidarInfo where
  sn : String
  deriving DecidableEq, Repr

/-- What the program takes from outside its own source file: the value of the
constant `kLivoxLidarStatusSuccess`, the result of `LivoxLidarSdkInit` on a
configuration path, and the text `inet_ntoa` produces for an address. -/
structure Vendor where
  kLivoxLidarStatusSuccess : Int
  LivoxLidarSdkInit : String → Bool
  inet_ntoa : Nat → String

/-! ## Global state -/

/-- A call of an SDK function made by `main`, with the arguments that vary.
`SetLivoxLidarInfoChangeCallback` is always passed `LidarInfoChangeCallback`
and `nullptr`; `SetLivoxLidarWorkMode` is always passed `WorkModeCallback`
and `&mode_value`, recorded here as the value `mode_value` holds. -/
inductive SdkCall
  | LivoxLidarSdkInit (path : String)
  | SetLivoxLidarInfoChangeCallback
  | SetLivoxLidarWorkMode (handle : Nat) (work_mode : LivoxLidarWorkMode) (client_data : Nat)
  | LivoxLidarSdkUninit
  deriving DecidableEq, Repr

/-- The variables of the program that outlive a function call (the mutex is
part of the concurrent model further down), what has been written to standard
output, one entry per `printf` call, and the SDK functions called so far.
`mode_value` is the `static uint8_t mode_value` of `main`. -/
structure World where
  g_lidar_map : StdMap String
  g_lidar_state_map : StdMap Nat
  g_mode_changed : Bool
  mode_value : Nat
  stdout : List String
  sdk : List SdkCall
  deriving DecidableEq, Repr

/-- State at program start: empty maps, `g_mode_changed = false`, the static
`mode_value` zero-initialised. -/
def World.initial : World :=
  { g_lidar_map := [], g_lidar_state_map := [], g_mode_changed := false,
    mode_value := 0, stdout := [], sdk := [] }

/-- One `printf` call. -/
def World.printf (w : World) (line : String) : World :=
  { w with stdout := w.stdout ++ [line] }

/-- One call of an SDK function. -/
def World.call (w : World) (c : SdkCall) : World :=
  { w with sdk := w.sdk ++ [c] }

/-! ## The callbacks, run without interruption -/

/-- The function `WorkModeCallback(status, handle, response, client_data)`,
run from entry to return. -/
def WorkModeCallback (V : Vendor) (status : Int) (handle : Nat)
    (response : Option LivoxLidarAsyncControlResponse) (client_data : Option Nat)
    (w : World) : World :=
  match response with
  | none => w
  | some response =>
    if status = V.kLivoxLidarStatusSuccess ∧ response.ret_code = 0 then
      let w := w.printf ("✓ Lidar " ++ V.inet_ntoa handle ++ " switched\n")
      match client_data with
      | some mode =>
        { w with
          g_lidar_state_map := StdMap.assign w.g_lidar_state_map handle mode
          g_mode_changed := true }
      | none => w
    else
      w.printf ("✗ Lidar " ++ V.inet_ntoa handle ++ " switch failed\n")

/-- The function `LidarInfoChangeCallback(handle, info, client_data)`, run
from entry to return. -/
def LidarInfoChangeCallback (V : Vendor) (handle : Nat) (info : Option LivoxLidarInfo)
    (_client_data : Option Nat) (w : World) : World :=
  match info with
  | none => w
  | some info =>
    let w := { w with
      g_lidar_map := StdMap.assign w.g_lidar_map handle info.sn
      g_lidar_state_map := StdMap.assign w.g_lidar_state_map handle 0x02 }
    w.printf ("✓ Lidar found: " ++ V.inet_ntoa handle ++ " (SN: " ++ info.sn ++ ")\n")

/-! ## Callback invocations in sequence -/

/-- A callback invocation by the SDK, with its arguments. -/
inductive Call
  | workMode (status : Int) (handle : Nat)
      (response : Option LivoxLidarAsyncControlResponse) (client_data : Option Nat)
  | infoChange (handle : Nat) (info : Option LivoxLidarInfo) (client_data : Option Nat)
  deriving DecidableEq, Repr

/-- Run one callback invocation to completion. -/
def Call.run (V : Vendor) : Call → World → World
  | .workMode status handle response client_data =>
    WorkModeCallback V status handle response client_data
  | .infoChange handle info client_data =>
    LidarInfoChangeCallback V handle info client_data

/-- Run callback invocations one after the other. -/
def runCalls (V : Vendor) : List Call → World → World
  | [], w => w
  | c :: cs, w => runCalls V cs (c.run V w)

/-! ## Pieces of `main` -/

/-- The mode token as lines 75 to 82 read it: `some true` for "on", `some false`
for "off", `none` for anything else. -/
def parseMode (mode_arg : String) : Option Bool :=
  if mode_arg = "on" then some true
  else if mode_arg = "off" then some false
  else none

/-- The four `printf` calls of lines 91 to 94. -/
def banner (w : World) : World :=
  (((w.printf "\n╔════════════════════════════════════════╗\n").printf
    "║  Livox Lidar Control                  ║\n").printf
    "╚════════════════════════════════════════╝\n").printf
    "\nScanning for lidars...\n"

/-! ## The threads and `g_lidar_mutex`

`main` runs on one thread and the SDK runs callback invocations on others. A
step of the system is one thread executing up to its next access to shared
state. A thread takes `g_lidar_mutex` (the constructor of its `lock_guard`)
only when no thread holds it, and a callback writes the maps only between
taking and releasing it. The SDK may start an invocation of either callback
at any time and with any arguments, and calls into the SDK return. -/

/-- A thread: `main`, or the SDK thread running callback invocation `i`. -/
inductive Tid
  | main
  | cb (i : Nat)
  deriving DecidableEq, Repr

/-- Where `main` stands:
* `start`: line 67, nothing executed;
* `sleep_discovery`: in the 3 s sleep of line 97;
* `lock`: at the `lock_guard` of line 99, not yet holding the mutex;
* `select`: line 101, holding the mutex;
* `dispatch target_mode i`: in the loop of line 121, at entry `i` of `g_lidar_map`;
* `sleep_completion`: in the 500 ms sleep of line 126;
* `shutdown code`: about to call `LivoxLidarSdkUninit` (line 103 or 130);
* `leave code`: at `return code` (line 104 or 131), the mutex still held;
* `returned code`: `main` has returned `code`. -/
inductive MainPc
  | start
  | sleep_discovery (turn_on : Bool)
  | lock (turn_on : Bool)
  | select (turn_on : Bool)
  | dispatch (target_mode : LivoxLidarWorkMode) (i : Nat)
  | sleep_completion
  | shutdown (code : Int)
  | leave (code : Int)
  | returned (code : Int)
  deriving DecidableEq, Repr

/-- Where a callback invocation stands:
* `entry`: invoked, nothing executed;
* `lock`: at its `lock_guard`, not yet holding the mutex;
* `critical`: holding the mutex, the writes not yet done;
* `unlock`: the writes done, the mutex still held;
* `finished`: returned. -/
inductive CbPc
  | entry
  | lock
  | critical
  | unlock
  | finished
  deriving DecidableEq, Repr

/-- A callback invocation in progress. -/
structure CbThread where
  call : Call
  pc : CbPc
  deriving DecidableEq, Repr

/-- State of the running program. -/
structure Sys where
  world : World
  g_lidar_mutex : Option Tid
  main : MainPc
  cbs : List CbThread
  deriving DecidableEq, Repr

/-- The program before `main` starts. -/
def Sys.initial : Sys :=
  { world := World.initial, g_lidar_mutex := none, main := .start, cbs := [] }

/-- Whether `main` is between taking the mutex on line 99 and returning. -/
def MainPc.locked : MainPc → Bool
  | .select _ => true
  | .dispatch _ _ => true
  | .sleep_completion => true
  | .shutdown _ => true
  | .leave _ => true
  | _ => false

/-- The function `main(argc, argv)`, with `argc` the length of `argv`, one
step at a time: the step `main` takes from where it stands in `s`; `none` when
it cannot move (blocked on the mutex, or returned). A missing `argv[k]` reads
as the empty string. -/
def main (V : Vendor) (argv : List String) (s : Sys) : Option Sys :=
  let w := s.world
  match s.main with
  | .start =>
    let argc := argv.length
    if argc ≠ 3 then
      some { s with
        world := w.printf ("Usage: " ++ argv.getD 0 "" ++ " <config.json> <on|off>\n")
        main := .returned (-1) }
    else
      let mode_arg := argv.getD 2 ""
      match parseMode mode_arg with
      | none =>
        some { s with
          world := w.printf "Invalid mode. Use 'on' or 'off'\n"
          main := .returned (-1) }
      | some turn_on =>
        let w := w.call (.LivoxLidarSdkInit (argv.getD 1 ""))
        if V.LivoxLidarSdkInit (argv.getD 1 "") = false then
          some { s with world := w.printf "Init failed\n", main := .returned (-1) }
        else
          let w := w.call .SetLivoxLidarInfoChangeCallback
          some { s with world := banner w, main := .sleep_discovery turn_on }
  | .sleep_discovery turn_on => some { s with main := .lock turn_on }
  | .lock turn_on =>
    if s.g_lidar_mutex = none then
      some { s with g_lidar_mutex := some .main, main := .select turn_on }
    else none
  | .select turn_on =>
    if StdMap.empty w.g_lidar_map then
      some { s with world := w.printf "\n✗ No lidars found\n", main := .shutdown (-1) }
    else
      let target_mode :=
        if turn_on then LivoxLidarWorkMode.kLivoxLidarNormal
        else LivoxLidarWorkMode.kLivoxLidarWakeUp
      let w := { w with mode_value := if turn_on then 0x01 else 0x02 }
      let w := w.printf
        (if turn_on then "\nTurning lidars 🟢 ON...\n\n"
         else "\nTurning lidars 🟡 OFF (STANDBY)...\n\n")
      some { s with world := w, main := .dispatch target_mode 0 }
  | .dispatch target_mode i =>
    match w.g_lidar_map[i]? with
    | some pair =>
      some { s with
        world := w.call (.SetLivoxLidarWorkMode pair.1 target_mode w.mode_value)
        main := .dispatch target_mode (i + 1) }
    | none => some { s with main := .sleep_completion }
  | .sleep_completion =>
    some { s with world := w.printf "\nDone!\n", main := .shutdown 0 }
  | .shutdown code =>
    some { s with world := w.call .LivoxLidarSdkUninit, main := .leave code }
  | .leave code =>
    some { s with g_lidar_mutex := none, main := .returned code }
  | .returned _ => none

/-- The functions `WorkModeCallback` and `LidarInfoChangeCallback` one step at
a time: the step the callback invocation `t`, running as thread `me`, takes
from where it stands, as the invocation, the world and the mutex afterwards;
`none` when it cannot move (blocked on the mutex, or finished). -/
def stepCb (V : Vendor) (me : Tid) (t : CbThread) (w : World) (mutex : Option Tid) :
    Option (CbThread × World × Option Tid) :=
  match t.pc with
  | .entry =>
    match t.call with
    | .workMode status handle response client_data =>
      match response with
      | none => some ({ t with pc := .finished }, w, mutex)
      | some response =>
        if status = V.kLivoxLidarStatusSuccess ∧ response.ret_code = 0 then
          let w := w.printf ("✓ Lidar " ++ V.inet_ntoa handle ++ " switched\n")
          match client_data with
          | some _ => some ({ t with pc := .lock }, w, mutex)
          | none => some ({ t with pc := .finished }, w, mutex)
        else
          some ({ t with pc := .finished },
            w.printf ("✗ Lidar " ++ V.inet_ntoa handle ++ " switch failed\n"), mutex)
    | .infoChange _ info _ =>
      match info with
      | none => some ({ t with pc := .finished }, w, mutex)
      | some _ => some ({ t with pc := .lock }, w, mutex)
  | .lock =>
    if mutex = none then some ({ t with pc := .critical }, w, some me) else none
  | .critical =>
    if mutex = some me then
      match t.call with
      | .workMode _ handle _ (some mode) =>
        some ({ t with pc := .unlock },
          { w with
            g_lidar_state_map := StdMap.assign w.g_lidar_state_map handle mode
            g_mode_changed := true }, mutex)
      | .infoChange handle (some info) _ =>
        some ({ t with pc := .unlock },
          { w with
            g_lidar_map := StdMap.assign w.g_lidar_map handle info.sn
            g_lidar_state_map := StdMap.assign w.g_lidar_state_map handle 0x02 }, mutex)
      | _ => none
    else none
  | .unlock =>
    if mutex = some me then
      match t.call with
      | .workMode _ _ _ _ => some ({ t with pc := .finished }, w, none)
      | .infoChange handle (some info) _ =>
        some ({ t with pc := .finished },
          w.printf ("✓ Lidar found: " ++ V.inet_ntoa handle ++ " (SN: " ++ info.sn ++ ")\n"),
          none)
      | .infoChange _ none _ => none
    else none
  | .finished => none

/-- What happens in one step of the system: `main` moves, the SDK starts a
callback invocation (any callback, any arguments), or callback invocation `i`
moves. -/
inductive Label
  | main
  | invoke (c : Call)
  | cb (i : Nat)
  deriving DecidableEq, Repr

/-- One step of the system; `none` when the step is not enabled. -/
def step (V : Vendor) (argv : List String) : Label → Sys → Option Sys
  | .main, s => main V argv s
  | .invoke c, s => some { s with cbs := s.cbs ++ [{ call := c, pc := .entry }] }
  | .cb i, s =>
    match s.cbs[i]? with
    | none => none
    | some t =>
      match stepCb V (.cb i) t s.world s.g_lidar_mutex with
      | none => none
      | some (t', w', m') =>
        some { world := w', g_lidar_mutex := m', main := s.main, cbs := s.cbs.set i t' }

/-- The steps `ls` in order; `none` when one of them is not enabled. -/
def run (V : Vendor) (argv : List String) : List Label → Sys → Option Sys
  | [], s => some s
  | l :: ls, s =>
    match step V argv l s with
    | none => none
    | some s' => run V argv ls s'

/-- Up to `n` consecutive steps of one callback invocation, no other thread
moving in between. -/
def stepsCb (V : Vendor) (me : Tid) :
    Nat → CbThread × World × Option Tid → CbThread × World × Option Tid
  | 0, x => x
  | n + 1, (t, w, m) =>
    match stepCb V me t w m with
    | none => (t, w, m)
    | some x => stepsCb V me n x

/-! ## Predicates used to state what the program does -/

/-- The three globals the callbacks write. -/
def World.registry (w : World) : StdMap String × StdMap Nat × Bool :=
  (w.g_lidar_map, w.g_lidar_state_map, w.g_mode_changed)

/-- The `SetLivoxLidarWorkMode` calls among SDK calls, in the order they were
made, each as handle, work mode and the mode value `client_data` points to. -/
def workModeCommands : List SdkCall → List (Nat × LivoxLidarWorkMode × Nat)
  | [] => []
  | .SetLivoxLidarWorkMode handle work_mode client_data :: cs =>
    (handle, work_mode, client_data) :: workModeCommands cs
  | .LivoxLidarSdkInit _ :: cs => workModeCommands cs
  | .SetLivoxLidarInfoChangeCallback :: cs => workModeCommands cs
  | .LivoxLidarSdkUninit :: cs => workModeCommands cs

/-- How the holder of `g_lidar_mutex` shows in the program counters: `main`
holds it from line 99 until it returns, and a callback invocation that is
between taking and releasing it holds it. -/
def MutexInv (s : Sys) : Prop :=
  (s.main.locked = true → s.g_lidar_mutex = some .main) ∧
  (∀ i t, s.cbs[i]? = some t → (t.pc = .critical ∨ t.pc = .unlock) →
    s.g_lidar_mutex = some (.cb i))

/-- The arguments are accepted and the SDK initialises: `argc` is 3, the mode
token is "on" (`turn_on = true`) or "off" (`turn_on = false`), and
`LivoxLidarSdkInit(argv[1])` succeeds. -/
def Valid (V : Vendor) (argv : List String) (turn_on : Bool) : Prop :=
  argv.length = 3 ∧ parseMode (argv.getD 2 "") = some turn_on ∧
    V.LivoxLidarSdkInit (argv.getD 1 "") = true

/-- The `SetLivoxLidarWorkMode` call for `handle` when the mode token gave
`turn_on`: handle, work mode, mode value. -/
def command (turn_on : Bool) (handle : Nat) : Nat × LivoxLidarWorkMode × Nat :=
  (handle,
   if turn_on then LivoxLidarWorkMode.kLivoxLidarNormal else LivoxLidarWorkMode.kLivoxLidarWakeUp,
   if turn_on then 0x01 else 0x02)

/-- How a run of `main` that reached line 101 with registry `reg` ends: with
`-1`, no command and the no-devices message when `reg` is empty, with `0` and
one command per entry of `reg`, in key order, otherwise. -/
def Outcome (turn_on : Bool) (reg : StdMap String) (code : Int) (w : World) : Prop :=
  (code = -1 ∧ reg = [] ∧ workModeCommands w.sdk = [] ∧ "\n✗ No lidars found\n" ∈ w.stdout) ∨
  (code = 0 ∧ reg ≠ [] ∧ workModeCommands w.sdk = (StdMap.keys reg).map (command turn_on))

/-- What holds of `main` up to line 101: past line 94 the arguments were
accepted, and no `SetLivoxLidarWorkMode` call has been made. -/
def BeforeSelect (V : Vendor) (argv : List String) (s : Sys) : Prop :=
  match s.main with
  | .start => s.world.sdk = []
  | .sleep_discovery t => Valid V argv t ∧ workModeCommands s.world.sdk = []
  | .lock t => Valid V argv t ∧ workModeCommands s.world.sdk = []
  | .select t => Valid V argv t ∧ workModeCommands s.world.sdk = []
  | _ => True

/-- What holds of `main` from line 101 on, when it got there with mode flag
`turn_on` and `g_lidar_map = reg`. -/
def AfterSelect (turn_on : Bool) (reg : StdMap String) (s : Sys) : Prop :=
  match s.main with
  | .select t =>
    t = turn_on ∧ s.world.g_lidar_map = reg ∧ workModeCommands s.world.sdk = []
  | .dispatch target_mode i =>
    s.world.g_lidar_map = reg ∧ reg ≠ [] ∧ target_mode = (command turn_on 0).2.1 ∧
      s.world.mode_value = (command turn_on 0).2.2 ∧
      workModeCommands s.world.sdk = ((StdMap.keys reg).take i).map (command turn_on)
  | .sleep_completion =>
    s.world.g_lidar_map = reg ∧ reg ≠ [] ∧
      workModeCommands s.world.sdk = (StdMap.keys reg).map (command turn_on)
  | .shutdown code => s.world.g_lidar_map = reg ∧ Outcome turn_on reg code s.world
  | .leave code => s.world.g_lidar_map = reg ∧ Outcome turn_on reg code s.world
  | .returned code => Outcome turn_on reg code s.world
  | _ => False

/-- The run `ls` from program start to `s` went through the selection step:
after its first part `before`, `main` stood on line 101 holding the mutex. -/
def PassedSelect (V : Vendor) (argv : List String) (ls : List Label) (s : Sys) : Prop :=
  ∃ (before after : List Label) (s1 : Sys) (turn_on : Bool),
    ls = before ++ after ∧ run V argv before Sys.initial = some s1 ∧
    s1.main = .select turn_on ∧ run V argv after s1 = some s

/-- The invocation is turned down before the discovery window: wrong argument
count, a mode token that is neither "on" nor "off", or a failing
`LivoxLidarSdkInit`. -/
def Rejected (V : Vendor) (argv : List String) : Prop :=
  argv.length ≠ 3 ∨ parseMode (argv.getD 2 "") = none ∨
    V.LivoxLidarSdkInit (argv.getD 1 "") = false

/-- How `main` got where it is in a run `ls` from program start: once past
line 99 the run went through the selection step, and a return is either the
`-1` of a rejected invocation or comes after the selection step. -/
def Tracked (V : Vendor) (argv : List String) (ls : List Label) (s : Sys) : Prop :=
  match s.main with
  | .start => True
  | .sleep_discovery _ => True
  | .lock _ => True
  | .returned code => (code = -1 ∧ Rejected V argv) ∨ PassedSelect V argv ls s
  | _ => PassedSelect V argv ls s

/-- Whether a callback invocation has what it takes to reach its writes: a
`WorkModeCallback` its mode context, a `LidarInfoChangeCallback` its `info`. -/
def Call.hasData : Call → Bool
  | .workMode _ _ _ (some _) => true
  | .infoChange _ (some _) _ => true
  | _ => false

/-- The holder of `g_lidar_mutex` is a thread that stands between taking and
releasing it, and a callback invocation at or past its `lock_guard` has the
data it writes. -/
def OwnerInv (s : Sys) : Prop :=
  (s.g_lidar_mutex = some .main → s.main.locked = true) ∧
  (∀ i, s.g_lidar_mutex = some (.cb i) →
    ∃ t, s.cbs[i]? = some t ∧ (t.pc = .critical ∨ t.pc = .unlock)) ∧
  (∀ (i : Nat) (t : CbThread), s.cbs[i]? = some t →
    (t.pc = .lock ∨ t.pc = .critical ∨ t.pc = .unlock) → t.call.hasData = true)

/-- Some continuation of the run brings `main` to its return. -/
def CanReturn (V : Vendor) (argv : List String) (s : Sys) : Prop :=
  ∃ (ls : List Label) (s' : Sys) (code : Int),
    run V argv ls s = some s' ∧ s'.main = .returned code

/-! ## Outcomes applied to a request -/

/-- A mode update for a device as the specification speaks of it: the mode
that was requested and the position of the request in the order of requests.
`WorkModeCallback` is handed the mode alone (through `client_data`); no
argument of it carries the position. -/
structure ModeUpdate where
  sequenceNumber : Nat
  mode : Nat
  deriving DecidableEq, Repr

/-- Delivery of the successful completion of the update `u` for `handle`:
`WorkModeCallback` with status `kLivoxLidarStatusSuccess`, a response with
`ret_code = 0`, and `client_data` pointing to the requested mode. -/
def ModeUpdate.deliver (V : Vendor) (handle : Nat) (u : ModeUpdate) (w : World) : World :=
  WorkModeCallback V V.kLivoxLidarStatusSuccess handle (some { ret_code := 0 }) (some u.mode) w

/-! ## Concrete inputs for the examples -/

/-- A vendor layer whose success status is 0, whose initialisation succeeds on
every path, and whose `inet_ntoa` prints every address alike. -/
def exampleVendor : Vendor :=
  { kLivoxLidarStatusSuccess := 0
    LivoxLidarSdkInit := fun _ => true
    inet_ntoa := fun _ => "192.168.1.100" }

/-- Handle 1 discovered with serial "SN-A", then switched to mode 0x01 by a
successful completion. -/
def switchedWorld : World :=
  WorkModeCallback exampleVendor 0 1 (some { ret_code := 0 }) (some 1)
    (LidarInfoChangeCallback exampleVendor 1 (some { sn := "SN-A" }) none World.initial)

/-- Command line `prog config.json on`. -/
def exampleArgv : List String := ["prog", "config.json", "on"]

/-- Steps up to the selection step: `main` runs up to its 3 s sleep, the SDK
announces handle 7 and the discovery callback runs to its end, the sleep ends
and `main` takes the mutex. -/
def exampleDiscoverySteps : List Label :=
  [.main, .invoke (.infoChange 7 (some { sn := "SN-A" }) none), .cb 0, .cb 0, .cb 0, .cb 0,
   .main, .main]

/-- Steps from the selection step into the 500 ms sleep: `main` selects and
issues the command for handle 7, the SDK delivers its successful completion,
whose callback runs up to its `lock_guard`, and `main` leaves the loop. -/
def exampleDispatchSteps : List Label :=
  [.main, .main, .invoke (.workMode 0 7 (some { ret_code := 0 }) (some 1)), .cb 1, .main]

/-- State reached by `exampleDiscoverySteps`. -/
def exampleSelected : Sys :=
  (run exampleVendor exampleArgv exampleDiscoverySteps Sys.initial).getD Sys.initial

/-- State reached from `exampleSelected` by `exampleDispatchSteps`. -/
def exampleWaiting : Sys :=
  (run exampleVendor exampleArgv exampleDispatchSteps exampleSelected).getD Sys.initial

/-- A run from program start to the return of `main`: the run of
`exampleDiscoverySteps` and `exampleDispatchSteps`, in which handle 7 is
discovered and its completion callback waits at its `lock_guard`, then `main`
ends its sleep, shuts the SDK down and returns. -/
def exampleFullSteps : List Label :=
  exampleDiscoverySteps ++ exampleDispatchSteps ++ [.main, .main, .main]

/-- State reached by `exampleFullSteps`. -/
def exampleReturned : Sys :=
  (run exampleVendor exampleArgv exampleFullSteps Sys.initial).getD Sys.initial

namespace StdMap

theorem find_assign_self {V : Type} (m : StdMap V) (k : Nat) (v : V) :
    find (assign m k v) k = some v := by
  induction m with
  | nil => simp [assign, find]
  | cons p t ih =>
    obtain ⟨k', v'⟩ := p
    by_cases h1 : k < k'
    · simp [assign, find, h1]
    · by_cases h2 : k = k'
      · simp [assign, find, h2]
      · simp [assign, find, h1, h2, ih]

theorem find_assign_ne {V : Type} (m : StdMap V) (k : Nat) (v : V) (k0 : Nat) (h : k0 ≠ k) :
    find (assign m k v) k0 = find m k0 := by
  induction m with
  | nil => simp [assign, find, h]
  | cons p t ih =>
    obtain ⟨k', v'⟩ := p
    by_cases h1 : k < k'
    · simp [assign, find, h1, h]
    · by_cases h2 : k = k'
      · subst h2
        simp [assign, find, h]
      · simp [assign, find, h1, h2, ih]

theorem assign_assign {V : Type} (m : StdMap V) (k : Nat) (v v' : V) :
    assign (assign m k v) k v' = assign m k v' := by
  induction m with
  | nil => simp [assign]
  | cons p t ih =>
    obtain ⟨k', v'⟩ := p
    by_cases h1 : k < k'
    · simp [assign, h1]
    · by_cases h2 : k = k'
      · simp [assign, h2]
      · simp [assign, h1, h2, ih]

theorem mem_keys_assign {V : Type} (m : StdMap V) (k : Nat) (v : V) (x : Nat) :
    x ∈ keys (assign m k v) ↔ x = k ∨ x ∈ keys m := by
  induction m with
  | nil => simp [assign, keys]
  | cons p t ih =>
    obtain ⟨k', v'⟩ := p
    by_cases h1 : k < k'
    · simp [assign, keys, h1]
    · by_cases h2 : k = k'
      · subst h2
        simp [assign, keys]
      · simp only [keys] at ih
        simp [assign, keys, h1, h2, ih]
        tauto

theorem ordered_assign {V : Type} (m : StdMap V) (k : Nat) (v : V) (hm : Ordered m) :
    Ordered (assign m k v) := by
  induction m with
  | nil => simp [assign, Ordered, keys]
  | cons p t ih =>
    obtain ⟨k', v'⟩ := p
    have hm' : (∀ x ∈ keys t, k' < x) ∧ Ordered t := by
      simpa [Ordered, keys] using hm
    by_cases h1 : k < k'
    · simp only [assign, h1, if_true]
      simp only [Ordered, keys, List.map_cons, List.pairwise_cons]
      refine ⟨?_, ?_⟩
      · intro x hx
        simp only [List.mem_cons] at hx
        rcases hx with hx | hx
        · omega
        · have := hm'.1 x hx
          omega
      · simpa [Ordered, keys] using hm
    · by_cases h2 : k = k'
      · subst h2
        simp only [assign, h1, if_false, if_true]
        simpa [Ordered, keys] using hm
      · simp only [assign, h1, h2, if_false]
        have ih' := ih hm'.2
        simp only [Ordered, keys, List.map_cons, List.pairwise_cons]
        refine ⟨?_, ih'⟩
        intro x hx
        have hx' := (mem_keys_assign t k v x).1 hx
        rcases hx' with hx' | hx'
        · omega
        · exact hm'.1 x hx'

theorem ordered_nodup {V : Type} (m : StdMap V) (hm : Ordered m) : (keys m).Nodup := by
  unfold Ordered at hm
  exact hm.imp (fun h => Nat.ne_of_lt h)

theorem mem_keys_of_mem {V : Type} (m : StdMap V) (k : Nat) (v : V) (h : (k, v) ∈ m) :
    k ∈ keys m := by
  simp only [keys, List.mem_map]
  exact ⟨(k, v), h, rfl⟩

theorem find_of_mem {V : Type} (m : StdMap V) (hm : Ordered m) (k : Nat) (v : V)
    (h : (k, v) ∈ m) : find m k = some v := by
  induction m with
  | nil => simp at h
  | cons p t ih =>
    obtain ⟨k', v'⟩ := p
    have hm' : (∀ x ∈ keys t, k' < x) ∧ Ordered t := by
      simpa [Ordered, keys] using hm
    simp only [List.mem_cons, Prod.mk.injEq] at h
    rcases h with ⟨hk, hv⟩ | h
    · simp [find, hk, hv]
    · have hlt := hm'.1 k (mem_keys_of_mem t k v h)
      have hne : k ≠ k' := by omega
      simp [find, hne, ih hm'.2 h]

end StdMap

/-! ## The callbacks -/

theorem WorkModeCallback_g_lidar_map (V : Vendor) (status : Int) (handle : Nat)
    (response : Option LivoxLidarAsyncControlResponse) (client_data : Option Nat) (w : World) :
    (WorkModeCallback V status handle response client_data w).g_lidar_map = w.g_lidar_map := by
  unfold WorkModeCallback
  cases response with
  | none => rfl
  | some r =>
    by_cases h : status = V.kLivoxLidarStatusSuccess ∧ r.ret_code = 0
    · cases client_data <;> simp [h, World.printf]
    · simp [h, World.printf]

theorem WorkModeCallback_success (V : Vendor) (handle : Nat) (mode : Nat)
    (r : LivoxLidarAsyncControlResponse) (hr : r.ret_code = 0) (w : World) :
    (WorkModeCallback V V.kLivoxLidarStatusSuccess handle (some r) (some mode) w).g_lidar_state_map
      = StdMap.assign w.g_lidar_state_map handle mode := by
  simp [WorkModeCallback, hr, World.printf]

/-- C3, counterexample. Handle 1 was discovered with serial "SN-A" and then
switched to mode 0x01 by a successful completion; a second discovery event for
handle 1 with serial "SN-B" replaces the identity by "SN-B" and resets the
recorded mode to 0x02. -/
theorem rediscovery_overwrites_record :
    StdMap.find switchedWorld.g_lidar_map 1 = some "SN-A" ∧
    StdMap.find switchedWorld.g_lidar_state_map 1 = some 1 ∧
    StdMap.find (LidarInfoChangeCallback exampleVendor 1 (some { sn := "SN-B" }) none
      switchedWorld).g_lidar_map 1 = some "SN-B" ∧
    StdMap.find (LidarInfoChangeCallback exampleVendor 1 (some { sn := "SN-B" }) none
      switchedWorld).g_lidar_state_map 1 = some 2 := by
  decide

/-- C3, as amended. A discovery event with non-null `info` assigns the record
of its handle whether or not the handle is already registered: afterwards the
identity stored for the handle is the one of this event and the mode stored
for it is the default 0x02; the identity and mode of every other handle are
as before, and so is `g_mode_changed`. For an unseen handle this inserts the
record. -/
theorem LidarInfoChangeCallback_assigns (V : Vendor) (handle : Nat) (info : LivoxLidarInfo)
    (client_data : Option Nat) (w : World) :
    (∀ h, StdMap.find (LidarInfoChangeCallback V handle (some info) client_data w).g_lidar_map h
        = if h = handle then some info.sn else StdMap.find w.g_lidar_map h) ∧
    (∀ h, StdMap.find
        (LidarInfoChangeCallback V handle (some info) client_data w).g_lidar_state_map h
        = if h = handle then some 0x02 else StdMap.find w.g_lidar_state_map h) ∧
    (LidarInfoChangeCallback V handle (some info) client_data w).g_mode_changed
      = w.g_mode_changed := by
  refine ⟨?_, ?_, ?_⟩
  · intro h
    by_cases hh : h = handle
    · subst hh
      simp [LidarInfoChangeCallback, World.printf, StdMap.find_assign_self]
    · simp [LidarInfoChangeCallback, World.printf, StdMap.find_assign_ne _ _ _ _ hh, hh]
  · intro h
    by_cases hh : h = handle
    · subst hh
      simp [LidarInfoChangeCallback, World.printf, StdMap.find_assign_self]
    · simp [LidarInfoChangeCallback, World.printf, StdMap.find_assign_ne _ _ _ _ hh, hh]
  · simp [LidarInfoChangeCallback, World.printf]

/-- C4, counterexample. It is not the case that delivering an older update
(smaller sequence number) after a newer one leaves the mode of the newer one:
on the empty registry, the update with sequence number 2 and mode 0x01
followed by the update with sequence number 1 and mode 0x02 leaves mode
0x02 recorded. -/
theorem stale_update_not_rejected :
    ¬ ∀ (V : Vendor) (w : World) (handle : Nat) (u1 u2 : ModeUpdate),
        u1.sequenceNumber < u2.sequenceNumber →
        StdMap.find (u1.deliver V handle (u2.deliver V handle w)).g_lidar_state_map handle
          = some u2.mode := by
  intro h
  have := h exampleVendor World.initial 1 { sequenceNumber := 1, mode := 2 }
    { sequenceNumber := 2, mode := 1 } (by decide)
  revert this
  decide

/-- C4, as amended. Whatever the sequence numbers of two mode updates for a
handle, after both have been delivered the recorded mode of the handle is the
mode of the update delivered last. -/
theorem last_delivered_update_wins (V : Vendor) (w : World) (handle : Nat)
    (u1 u2 : ModeUpdate) :
    StdMap.find (u1.deliver V handle (u2.deliver V handle w)).g_lidar_state_map handle
      = some u1.mode := by
  unfold ModeUpdate.deliver
  rw [WorkModeCallback_success V handle u1.mode _ rfl]
  exact StdMap.find_assign_self _ _ _

/-- C5. Delivering a completion a second time, directly after the first
delivery, leaves `g_lidar_map`, `g_lidar_state_map` and `g_mode_changed` as
the first delivery left them. -/
theorem WorkModeCallback_twice (V : Vendor) (status : Int) (handle : Nat)
    (response : Option LivoxLidarAsyncControlResponse) (client_data : Option Nat) (w : World) :
    (WorkModeCallback V status handle response client_data
        (WorkModeCallback V status handle response client_data w)).g_lidar_map
      = (WorkModeCallback V status handle response client_data w).g_lidar_map ∧
    (WorkModeCallback V status handle response client_data
        (WorkModeCallback V status handle response client_data w)).g_lidar_state_map
      = (WorkModeCallback V status handle response client_data w).g_lidar_state_map ∧
    (WorkModeCallback V status handle response client_data
        (WorkModeCallback V status handle response client_data w)).g_mode_changed
      = (WorkModeCallback V status handle response client_data w).g_mode_changed := by
  unfold WorkModeCallback
  cases response with
  | none => simp
  | some r =>
    by_cases h : status = V.kLivoxLidarStatusSuccess ∧ r.ret_code = 0
    · cases client_data with
      | none => simp [h, World.printf]
      | some mode => simp [h, World.printf, StdMap.assign_assign]
    · simp [h, World.printf]

/-- C6. A completion delivered to `WorkModeCallback` never changes
`g_lidar_map` nor the recorded mode of a handle other than its own. On success
(status `kLivoxLidarStatusSuccess`, a response with `ret_code = 0`, a non-null
mode context) the recorded mode of its handle becomes the requested mode; on
failure (a null response, another status, or another `ret_code`)
`g_lidar_state_map` is left as it was. -/
theorem WorkModeCallback_effect (V : Vendor) (status : Int) (handle : Nat)
    (response : Option LivoxLidarAsyncControlResponse) (client_data : Option Nat) (w : World) :
    (WorkModeCallback V status handle response client_data w).g_lidar_map = w.g_lidar_map ∧
    (∀ h, h ≠ handle →
      StdMap.find (WorkModeCallback V status handle response client_data w).g_lidar_state_map h
        = StdMap.find w.g_lidar_state_map h) ∧
    (∀ r mode, response = some r → client_data = some mode →
      status = V.kLivoxLidarStatusSuccess → r.ret_code = 0 →
      StdMap.find (WorkModeCallback V status handle response client_data w).g_lidar_state_map
        handle = some mode) ∧
    ((response = none ∨ status ≠ V.kLivoxLidarStatusSuccess ∨
        ∃ r, response = some r ∧ r.ret_code ≠ 0) →
      (WorkModeCallback V status handle response client_data w).g_lidar_state_map
        = w.g_lidar_state_map) := by
  refine ⟨WorkModeCallback_g_lidar_map V status handle response client_data w, ?_, ?_, ?_⟩
  · intro h hh
    unfold WorkModeCallback
    cases response with
    | none => rfl
    | some r =>
      by_cases hs : status = V.kLivoxLidarStatusSuccess ∧ r.ret_code = 0
      · cases client_data with
        | none => simp [hs, World.printf]
        | some mode => simp [hs, World.printf, StdMap.find_assign_ne _ _ _ _ hh]
      · simp [hs, World.printf]
  · intro r mode hr hc hs hret
    subst hr hc hs
    rw [WorkModeCallback_success V handle mode r hret]
    exact StdMap.find_assign_self _ _ _
  · intro hfail
    unfold WorkModeCallback
    cases response with
    | none => rfl
    | some r =>
      have hs : ¬ (status = V.kLivoxLidarStatusSuccess ∧ r.ret_code = 0) := by
        rintro ⟨h1, h2⟩
        rcases hfail with h | h | ⟨r', hr', h⟩
        · cases h
        · exact h h1
        · cases hr'
          exact h h2
      simp [hs, World.printf]

/-- C6, an instance: on `switchedWorld` extended by the discovery of handle 2,
a successful completion for handle 2 with mode 0x01 records mode 0x01 for
handle 2 and leaves the mode of handle 1, and a failed completion (status 1)
leaves `g_lidar_state_map` as it was. -/
theorem WorkModeCallback_effect_witness :
    StdMap.find (WorkModeCallback exampleVendor 0 2 (some { ret_code := 0 }) (some 1)
      switchedWorld).g_lidar_state_map 2 = some 1 ∧
    StdMap.find (WorkModeCallback exampleVendor 0 2 (some { ret_code := 0 }) (some 1)
      switchedWorld).g_lidar_state_map 1 = StdMap.find switchedWorld.g_lidar_state_map 1 ∧
    (WorkModeCallback exampleVendor 1 2 (some { ret_code := 0 }) (some 1)
      switchedWorld).g_lidar_state_map = switchedWorld.g_lidar_state_map :=
  ⟨(WorkModeCallback_effect exampleVendor 0 2 (some { ret_code := 0 }) (some 1)
      switchedWorld).2.2.1 { ret_code := 0 } 1 rfl rfl rfl rfl,
   (WorkModeCallback_effect exampleVendor 0 2 (some { ret_code := 0 }) (some 1)
      switchedWorld).2.1 1 (by decide),
   (WorkModeCallback_effect exampleVendor 1 2 (some { ret_code := 0 }) (some 1)
      switchedWorld).2.2.2 (Or.inr (Or.inl (by decide)))⟩

/-- C7, counterexample. On the empty registry, where handle 5 has no record,
a successful completion for handle 5 with mode 0x01 creates the entry
`5 ↦ 0x01` in `g_lidar_state_map`. -/
theorem unknown_handle_update_recorded :
    StdMap.find World.initial.g_lidar_map 5 = none ∧
    StdMap.find World.initial.g_lidar_state_map 5 = none ∧
    (WorkModeCallback exampleVendor 0 5 (some { ret_code := 0 }) (some 1)
      World.initial).g_lidar_state_map = [(5, 1)] ∧
    (WorkModeCallback exampleVendor 0 5 (some { ret_code := 0 }) (some 1)
      World.initial).g_lidar_state_map ≠ World.initial.g_lidar_state_map := by
  decide

/-- C7, as amended. A successful completion for a handle that has no record
leaves `g_lidar_map` as it was, so no identity record is created for the
handle, and leaves the recorded modes of all other handles; in
`g_lidar_state_map` it creates the entry of the handle with the requested
mode. -/
theorem WorkModeCallback_unknown_handle (V : Vendor) (handle : Nat) (mode : Nat)
    (r : LivoxLidarAsyncControlResponse) (w : World) (hr : r.ret_code = 0)
    (hnew : StdMap.find w.g_lidar_map handle = none)
    (hnew' : StdMap.find w.g_lidar_state_map handle = none) :
    (WorkModeCallback V V.kLivoxLidarStatusSuccess handle (some r) (some mode) w).g_lidar_map
      = w.g_lidar_map ∧
    StdMap.find
      (WorkModeCallback V V.kLivoxLidarStatusSuccess handle (some r) (some mode) w).g_lidar_map
      handle = none ∧
    (∀ h, StdMap.find
      (WorkModeCallback V V.kLivoxLidarStatusSuccess handle (some r) (some mode)
        w).g_lidar_state_map h
      = if h = handle then some mode else StdMap.find w.g_lidar_state_map h) ∧
    (WorkModeCallback V V.kLivoxLidarStatusSuccess handle (some r) (some mode)
        w).g_lidar_state_map ≠ w.g_lidar_state_map := by
  have hmap := WorkModeCallback_g_lidar_map V V.kLivoxLidarStatusSuccess handle (some r)
    (some mode) w
  have hst := WorkModeCallback_success V handle mode r hr w
  refine ⟨hmap, by rw [hmap]; exact hnew, ?_, ?_⟩
  · intro h
    rw [hst]
    by_cases hh : h = handle
    · subst hh
      simp [StdMap.find_assign_self]
    · simp [StdMap.find_assign_ne _ _ _ _ hh, hh]
  · intro heq
    have h1 : StdMap.find
        (WorkModeCallback V V.kLivoxLidarStatusSuccess handle (some r) (some mode)
          w).g_lidar_state_map handle = some mode := by
      rw [hst]
      exact StdMap.find_assign_self _ _ _
    rw [heq, hnew'] at h1
    cases h1

/-- C7, an instance: handle 5 on the empty registry. -/
theorem WorkModeCallback_unknown_handle_witness :
    (WorkModeCallback exampleVendor exampleVendor.kLivoxLidarStatusSuccess 5
        (some { ret_code := 0 }) (some 1) World.initial).g_lidar_map
      = World.initial.g_lidar_map ∧
    StdMap.find
      (WorkModeCallback exampleVendor exampleVendor.kLivoxLidarStatusSuccess 5
        (some { ret_code := 0 }) (some 1) World.initial).g_lidar_map 5 = none ∧
    (∀ h, StdMap.find
      (WorkModeCallback exampleVendor exampleVendor.kLivoxLidarStatusSuccess 5
        (some { ret_code := 0 }) (some 1) World.initial).g_lidar_state_map h
      = if h = 5 then some 1 else StdMap.find World.initial.g_lidar_state_map h) ∧
    (WorkModeCallback exampleVendor exampleVendor.kLivoxLidarStatusSuccess 5
        (some { ret_code := 0 }) (some 1) World.initial).g_lidar_state_map
      ≠ World.initial.g_lidar_state_map :=
  WorkModeCallback_unknown_handle exampleVendor 5 1 { ret_code := 0 } World.initial rfl
    (by decide) (by decide)

theorem LidarInfoChangeCallback_g_lidar_map (V : Vendor) (handle : Nat) (info : LivoxLidarInfo)
    (client_data : Option Nat) (w : World) :
    (LidarInfoChangeCallback V handle (some info) client_data w).g_lidar_map
      = StdMap.assign w.g_lidar_map handle info.sn := by
  simp [LidarInfoChangeCallback, World.printf]

theorem call_run_ordered (V : Vendor) (c : Call) (w : World)
    (hw : StdMap.Ordered w.g_lidar_map) : StdMap.Ordered (c.run V w).g_lidar_map := by
  cases c with
  | workMode status handle response client_data =>
    simp only [Call.run, WorkModeCallback_g_lidar_map]
    exact hw
  | infoChange handle info client_data =>
    cases info with
    | none => exact hw
    | some info =>
      simp only [Call.run, LidarInfoChangeCallback_g_lidar_map]
      exact StdMap.ordered_assign _ _ _ hw

theorem call_run_keys_mono (V : Vendor) (c : Call) (w : World) (x : Nat)
    (hx : x ∈ StdMap.keys w.g_lidar_map) : x ∈ StdMap.keys (c.run V w).g_lidar_map := by
  cases c with
  | workMode status handle response client_data =>
    simp only [Call.run, WorkModeCallback_g_lidar_map]
    exact hx
  | infoChange handle info client_data =>
    cases info with
    | none => exact hx
    | some info =>
      simp only [Call.run, LidarInfoChangeCallback_g_lidar_map]
      exact (StdMap.mem_keys_assign _ _ _ _).2 (Or.inr hx)

theorem runCalls_ordered (V : Vendor) (cs : List Call) (w : World)
    (hw : StdMap.Ordered w.g_lidar_map) : StdMap.Ordered (runCalls V cs w).g_lidar_map := by
  induction cs generalizing w with
  | nil => exact hw
  | cons c cs ih => exact ih _ (call_run_ordered V c w hw)

theorem runCalls_keys_mono (V : Vendor) (cs : List Call) (w : World) (x : Nat)
    (hx : x ∈ StdMap.keys w.g_lidar_map) : x ∈ StdMap.keys (runCalls V cs w).g_lidar_map := by
  induction cs generalizing w with
  | nil => exact hx
  | cons c cs ih => exact ih _ (call_run_keys_mono V c w x hx)

theorem runCalls_discovered (V : Vendor) (cs : List Call) (w : World) (handle : Nat)
    (info : LivoxLidarInfo) (client_data : Option Nat)
    (h : Call.infoChange handle (some info) client_data ∈ cs) :
    handle ∈ StdMap.keys (runCalls V cs w).g_lidar_map := by
  induction cs generalizing w with
  | nil => simp at h
  | cons c cs ih =>
    simp only [List.mem_cons] at h
    rcases h with h | h
    · subst h
      refine runCalls_keys_mono V cs
        (LidarInfoChangeCallback V handle (some info) client_data w) handle ?_
      rw [LidarInfoChangeCallback_g_lidar_map]
      exact (StdMap.mem_keys_assign _ _ _ _).2 (Or.inl rfl)
    · exact ih _ h

theorem ordered_initial : StdMap.Ordered World.initial.g_lidar_map := by
  simp [World.initial, StdMap.Ordered, StdMap.keys]

/-- C8. After any finite sequence of callback invocations started on the empty
registry (discovery events, and completions in between as well), the keys of
`g_lidar_map` are strictly ascending, two records of `g_lidar_map` with the
same handle carry the same identity string, and every handle that a discovery
event with non-null `info` announced has exactly one record. -/
theorem discovery_one_identity_per_handle (V : Vendor) (events : List Call) :
    StdMap.Ordered (runCalls V events World.initial).g_lidar_map ∧
    (∀ handle sn1 sn2,
      (handle, sn1) ∈ (runCalls V events World.initial).g_lidar_map →
      (handle, sn2) ∈ (runCalls V events World.initial).g_lidar_map → sn1 = sn2) ∧
    (∀ handle info client_data, Call.infoChange handle (some info) client_data ∈ events →
      (StdMap.keys (runCalls V events World.initial).g_lidar_map).count handle = 1) := by
  have hord := runCalls_ordered V events World.initial ordered_initial
  refine ⟨hord, ?_, ?_⟩
  · intro handle sn1 sn2 h1 h2
    have e1 := StdMap.find_of_mem _ hord handle sn1 h1
    have e2 := StdMap.find_of_mem _ hord handle sn2 h2
    rw [e1] at e2
    exact Option.some.inj e2
  · intro handle info client_data h
    exact List.count_eq_one_of_mem (StdMap.ordered_nodup _ hord)
      (runCalls_discovered V events World.initial handle info client_data h)

/-- C8, an instance: handle 7 announced twice, with serials "SN-A" and then
"SN-B", and handle 3 once; handle 7 has one record. -/
theorem discovery_one_identity_per_handle_witness :
    (StdMap.keys (runCalls exampleVendor
      [Call.infoChange 7 (some { sn := "SN-A" }) none,
       Call.infoChange 3 (some { sn := "SN-C" }) none,
       Call.infoChange 7 (some { sn := "SN-B" }) none] World.initial).g_lidar_map).count 7
      = 1 :=
  (discovery_one_identity_per_handle exampleVendor
    [Call.infoChange 7 (some { sn := "SN-A" }) none,
     Call.infoChange 3 (some { sn := "SN-C" }) none,
     Call.infoChange 7 (some { sn := "SN-B" }) none]).2.2 7 { sn := "SN-B" } none (by decide)

/-! ## Auxiliary facts -/

theorem parseMode_eq_none (mode_arg : String) :
    parseMode mode_arg = none ↔ (mode_arg ≠ "on" ∧ mode_arg ≠ "off") := by
  unfold parseMode
  by_cases h1 : mode_arg = "on"
  · simp [h1]
  · by_cases h2 : mode_arg = "off"
    · simp [h2]
    · simp [h1, h2]

theorem workModeCommands_append (a b : List SdkCall) :
    workModeCommands (a ++ b) = workModeCommands a ++ workModeCommands b := by
  induction a with
  | nil => rfl
  | cons c cs ih => cases c <;> simp [workModeCommands, ih]

/-! ## The concurrent program: mutual exclusion -/

/-- What a step of `main` does to the mutex and to its program counter; it
never changes the registry nor the callback invocations. -/
theorem main_step_spec (V : Vendor) (argv : List String) (s s' : Sys)
    (h : main V argv s = some s') :
    s'.cbs = s.cbs ∧ s'.world.registry = s.world.registry ∧
    ((s.main.locked = false ∧ s'.main.locked = false ∧ s'.g_lidar_mutex = s.g_lidar_mutex) ∨
     (s.main.locked = false ∧ s'.main.locked = true ∧ s.g_lidar_mutex = none ∧
        s'.g_lidar_mutex = some .main) ∨
     (s.main.locked = true ∧ s'.main.locked = true ∧ s'.g_lidar_mutex = s.g_lidar_mutex) ∨
     (s.main.locked = true ∧ (∃ code, s'.main = .returned code) ∧ s'.g_lidar_mutex = none)) := by
  unfold main at h
  cases hm : s.main with
  | start =>
    simp only [hm] at h
    split at h
    · cases h
      simp [MainPc.locked, World.registry, World.printf]
    · split at h
      · cases h
        simp [MainPc.locked, World.registry, World.printf]
      · split at h
        · cases h
          simp [MainPc.locked, World.registry, World.printf, World.call]
        · cases h
          simp [MainPc.locked, World.registry, World.printf, World.call, banner]
  | sleep_discovery t =>
    simp only [hm] at h
    cases h
    simp [MainPc.locked]
  | lock t =>
    simp only [hm] at h
    split at h
    · rename_i hmx
      cases h
      simp [MainPc.locked, hmx]
    · cases h
  | select t =>
    simp only [hm] at h
    split at h
    · cases h
      simp [MainPc.locked, World.registry, World.printf]
    · cases h
      simp [MainPc.locked, World.registry, World.printf]
  | dispatch tm i =>
    simp only [hm] at h
    split at h
    · cases h
      simp [MainPc.locked, World.registry, World.call]
    · cases h
      simp [MainPc.locked]
  | sleep_completion =>
    simp only [hm] at h
    cases h
    simp [MainPc.locked, World.registry, World.printf]
  | shutdown code =>
    simp only [hm] at h
    cases h
    simp [MainPc.locked, World.registry, World.call]
  | leave code =>
    simp only [hm] at h
    cases h
    simp [MainPc.locked]
  | returned code =>
    simp only [hm] at h
    cases h

/-- What a step of a callback invocation does: before it holds the mutex it
leaves the registry alone; it takes the mutex only when no thread holds it;
it writes only while it holds the mutex; and releasing leaves the registry
alone. -/
theorem stepCb_spec (V : Vendor) (me : Tid) (t t' : CbThread) (w w' : World)
    (m m' : Option Tid) (h : stepCb V me t w m = some (t', w', m')) :
    (t.pc = .entry ∧ (t'.pc = .lock ∨ t'.pc = .finished) ∧ m' = m ∧
        w'.registry = w.registry) ∨
    (t.pc = .lock ∧ t'.pc = .critical ∧ m = none ∧ m' = some me ∧ w' = w) ∨
    (t.pc = .critical ∧ t'.pc = .unlock ∧ m = some me ∧ m' = some me) ∨
    (t.pc = .unlock ∧ t'.pc = .finished ∧ m = some me ∧ m' = none ∧
        w'.registry = w.registry) := by
  unfold stepCb at h
  cases hp : t.pc with
  | entry =>
    simp only [hp] at h
    left
    split at h
    · split at h
      · cases h
        simp
      · split at h
        · split at h
          · cases h
            simp [World.registry, World.printf]
          · cases h
            simp [World.registry, World.printf]
        · cases h
          simp [World.registry, World.printf]
    · split at h
      · cases h
        simp
      · cases h
        simp
  | lock =>
    simp only [hp] at h
    right; left
    split at h
    · rename_i hm
      cases h
      simp [hm]
    · cases h
  | critical =>
    simp only [hp] at h
    right; right; left
    split at h
    · rename_i hm
      split at h
      · cases h
        simp [hm]
      · cases h
        simp [hm]
      · cases h
    · cases h
  | unlock =>
    simp only [hp] at h
    right; right; right
    split at h
    · rename_i hm
      split at h
      · cases h
        simp [hm, World.registry]
      · cases h
        simp [hm, World.registry, World.printf]
      · cases h
    · cases h
  | finished =>
    simp only [hp] at h
    cases h

theorem mutexInv_initial : MutexInv Sys.initial := by
  constructor
  · intro h
    simp [Sys.initial, MainPc.locked] at h
  · intro i t h
    simp [Sys.initial] at h

/-- Every step keeps `MutexInv`. -/
theorem step_mutexInv (V : Vendor) (argv : List String) (l : Label) (s s' : Sys)
    (hinv : MutexInv s) (h : step V argv l s = some s') : MutexInv s' := by
  obtain ⟨hmain, hcb⟩ := hinv
  cases l with
  | main =>
    simp only [step] at h
    obtain ⟨hcbs, -, hcase⟩ := main_step_spec V argv s s' h
    rcases hcase with ⟨h1, h2, h3⟩ | ⟨h1, h2, h3, h4⟩ | ⟨h1, h2, h3⟩ | ⟨h1, ⟨code, h2⟩, h3⟩
    · refine ⟨fun hl => ?_, fun i t ht hpc => ?_⟩
      · rw [h2] at hl
        cases hl
      · rw [h3]
        rw [hcbs] at ht
        exact hcb i t ht hpc
    · refine ⟨fun _ => h4, fun i t ht hpc => ?_⟩
      rw [hcbs] at ht
      have := hcb i t ht hpc
      rw [h3] at this
      cases this
    · refine ⟨fun _ => ?_, fun i t ht hpc => ?_⟩
      · rw [h3]
        exact hmain h1
      · rw [h3]
        rw [hcbs] at ht
        exact hcb i t ht hpc
    · refine ⟨fun hl => ?_, fun i t ht hpc => ?_⟩
      · rw [h2] at hl
        cases hl
      · rw [hcbs] at ht
        have := hcb i t ht hpc
        rw [hmain h1] at this
        cases this
  | invoke c =>
    simp only [step] at h
    cases h
    refine ⟨hmain, fun i t ht hpc => ?_⟩
    simp only [List.getElem?_append] at ht
    split at ht
    · exact hcb i t ht hpc
    · have hlen : (i - s.cbs.length) = 0 ∨ 0 < (i - s.cbs.length) := by omega
      rcases hlen with h0 | h0
      · rw [h0] at ht
        simp at ht
        subst ht
        rcases hpc with hpc | hpc <;> cases hpc
      · have : ([{ call := c, pc := CbPc.entry }] : List CbThread)[i - s.cbs.length]? = none := by
          apply List.getElem?_eq_none
          simp
          omega
        rw [this] at ht
        cases ht
  | cb i =>
    simp only [step] at h
    cases hti : s.cbs[i]? with
    | none =>
      simp only [hti] at h
      cases h
    | some t =>
      simp only [hti] at h
      cases hst : stepCb V (.cb i) t s.world s.g_lidar_mutex with
      | none =>
        simp only [hst] at h
        cases h
      | some r =>
        obtain ⟨t', w', m'⟩ := r
        simp only [hst] at h
        cases h
        have hilt : i < s.cbs.length := by
          rcases List.getElem?_eq_some.1 hti with ⟨hlt, -⟩
          exact hlt
        have hother : ∀ j u, (s.cbs.set i t')[j]? = some u → j ≠ i → s.cbs[j]? = some u := by
          intro j u hu hne
          rw [List.getElem?_set_ne (Ne.symm hne)] at hu
          exact hu
        have hself : ∀ u, (s.cbs.set i t')[i]? = some u → u = t' := by
          intro u hu
          rw [List.getElem?_set_self hilt] at hu
          exact (Option.some.inj hu).symm
        rcases stepCb_spec V (.cb i) t t' s.world w' s.g_lidar_mutex m' hst with
          ⟨h1, h2, h3, -⟩ | ⟨h1, h2, h3, h4, -⟩ | ⟨h1, h2, h3, h4⟩ | ⟨h1, h2, h3, h4, -⟩
        · subst h3
          refine ⟨hmain, fun j u hu hpc => ?_⟩
          by_cases hji : j = i
          · subst hji
            have := hself u hu
            subst this
            rcases h2 with h2 | h2 <;> rcases hpc with hpc | hpc <;> rw [h2] at hpc <;> cases hpc
          · exact hcb j u (hother j u hu hji) hpc
        · subst h4
          refine ⟨fun hl => ?_, fun j u hu hpc => ?_⟩
          · have := hmain hl
            rw [h3] at this
            cases this
          · by_cases hji : j = i
            · subst hji
              rfl
            · have := hcb j u (hother j u hu hji) hpc
              rw [h3] at this
              cases this
        · subst h4
          refine ⟨fun hl => ?_, fun j u hu hpc => ?_⟩
          · have := hmain hl
            rw [h3] at this
            cases this
          · by_cases hji : j = i
            · subst hji
              rfl
            · have := hcb j u (hother j u hu hji) hpc
              rw [h3] at this
              cases this
              exact absurd rfl hji
        · subst h4
          refine ⟨fun hl => ?_, fun j u hu hpc => ?_⟩
          · have := hmain hl
            rw [h3] at this
            cases this
          · by_cases hji : j = i
            · subst hji
              have := hself u hu
              subst this
              rcases hpc with hpc | hpc <;> rw [h2] at hpc <;> cases hpc
            · have := hcb j u (hother j u hu hji) hpc
              rw [h3] at this
              cases this
              exact absurd rfl hji

theorem run_mutexInv (V : Vendor) (argv : List String) (ls : List Label) (s s' : Sys)
    (hinv : MutexInv s) (h : run V argv ls s = some s') : MutexInv s' := by
  induction ls generalizing s with
  | nil =>
    simp only [run] at h
    cases h
    exact hinv
  | cons l ls ih =>
    simp only [run] at h
    cases hst : step V argv l s with
    | none =>
      simp only [hst] at h
      cases h
    | some s1 =>
      simp only [hst] at h
      exact ih s1 (step_mutexInv V argv l s s1 hinv hst) h

/-- While `main` holds the mutex, a step of any thread leaves the registry as
it is, and `main` either still holds the mutex or has returned. -/
theorem step_locked (V : Vendor) (argv : List String) (l : Label) (s s' : Sys)
    (hinv : MutexInv s) (hl : s.main.locked = true) (h : step V argv l s = some s') :
    s'.world.registry = s.world.registry ∧
    (s'.main.locked = true ∨ ∃ code, s'.main = .returned code) := by
  have hmx := hinv.1 hl
  cases l with
  | main =>
    simp only [step] at h
    obtain ⟨-, hreg, hcase⟩ := main_step_spec V argv s s' h
    refine ⟨hreg, ?_⟩
    rcases hcase with ⟨h1, -⟩ | ⟨h1, -⟩ | ⟨-, h2, -⟩ | ⟨-, h2, -⟩
    · rw [hl] at h1
      cases h1
    · rw [hl] at h1
      cases h1
    · exact Or.inl h2
    · exact Or.inr h2
  | invoke c =>
    simp only [step] at h
    cases h
    exact ⟨rfl, Or.inl hl⟩
  | cb i =>
    simp only [step] at h
    cases hti : s.cbs[i]? with
    | none =>
      simp only [hti] at h
      cases h
    | some t =>
      simp only [hti] at h
      cases hst : stepCb V (.cb i) t s.world s.g_lidar_mutex with
      | none =>
        simp only [hst] at h
        cases h
      | some r =>
        obtain ⟨t', w', m'⟩ := r
        simp only [hst] at h
        cases h
        refine ⟨?_, Or.inl hl⟩
        rcases stepCb_spec V (.cb i) t t' s.world w' s.g_lidar_mutex m' hst with
          ⟨-, -, -, h4⟩ | ⟨-, -, h3, -⟩ | ⟨-, -, h3, -⟩ | ⟨-, -, h3, -⟩
        · exact h4
        · rw [hmx] at h3
          cases h3
        · rw [hmx] at h3
          cases h3
        · rw [hmx] at h3
          cases h3

/-- Once `main` has returned it takes no further step. -/
theorem step_returned (V : Vendor) (argv : List String) (l : Label) (s s' : Sys) (code : Int)
    (hr : s.main = .returned code) (h : step V argv l s = some s') :
    s'.main = .returned code := by
  cases l with
  | main =>
    simp only [step, main, hr] at h
    cases h
  | invoke c =>
    simp only [step] at h
    cases h
    exact hr
  | cb i =>
    simp only [step] at h
    split at h
    · cases h
    · split at h
      · cases h
      · cases h
        exact hr

theorem run_returned (V : Vendor) (argv : List String) (ls : List Label) (s s' : Sys)
    (code : Int) (hr : s.main = .returned code) (h : run V argv ls s = some s') :
    s'.main = .returned code := by
  induction ls generalizing s with
  | nil =>
    simp only [run] at h
    cases h
    exact hr
  | cons l ls ih =>
    simp only [run] at h
    cases hst : step V argv l s with
    | none =>
      simp only [hst] at h
      cases h
    | some s1 =>
      simp only [hst] at h
      exact ih s1 (step_returned V argv l s s1 code hr hst) h

/-- From a state in which `main` holds the mutex, every run that ends before
`main` has returned ends with `main` still holding the mutex and the registry
as it was. -/
theorem run_locked (V : Vendor) (argv : List String) (ls : List Label) (s s' : Sys)
    (hinv : MutexInv s) (hl : s.main.locked = true) (h : run V argv ls s = some s')
    (hnr : ∀ code, s'.main ≠ .returned code) :
    s'.main.locked = true ∧ s'.world.registry = s.world.registry := by
  induction ls generalizing s with
  | nil =>
    simp only [run] at h
    cases h
    exact ⟨hl, rfl⟩
  | cons l ls ih =>
    simp only [run] at h
    cases hst : step V argv l s with
    | none =>
      simp only [hst] at h
      cases h
    | some s1 =>
      simp only [hst] at h
      obtain ⟨hreg, hcase⟩ := step_locked V argv l s s1 hinv hl hst
      rcases hcase with hl1 | ⟨code, hret⟩
      · obtain ⟨h1, h2⟩ := ih s1 (step_mutexInv V argv l s s1 hinv hst) hl1 h
        exact ⟨h1, h2.trans hreg⟩
      · exact absurd (run_returned V argv ls s1 s' code hret h) (hnr code)

/-- C10. Take any run of the program that brings `main` to the selection step
(line 101, the mutex just taken) and continue it by any steps of any threads
to a state in which `main` has not yet returned. In that state `main` is still
between line 101 and its return and holds `g_lidar_mutex`; `g_lidar_map`,
`g_lidar_state_map` and `g_mode_changed` are as they were at selection; no
callback invocation stands in its critical section; and a step of a callback
invocation, where one is enabled, leaves the registry as it is. -/
theorem main_holds_mutex_until_return (V : Vendor) (argv : List String)
    (before after : List Label) (s1 s2 : Sys) (turn_on : Bool)
    (h1 : run V argv before Sys.initial = some s1) (hsel : s1.main = .select turn_on)
    (h2 : run V argv after s1 = some s2) (hnr : ∀ code, s2.main ≠ .returned code) :
    s2.main.locked = true ∧ s2.g_lidar_mutex = some .main ∧
    s2.world.g_lidar_map = s1.world.g_lidar_map ∧
    s2.world.g_lidar_state_map = s1.world.g_lidar_state_map ∧
    s2.world.g_mode_changed = s1.world.g_mode_changed ∧
    (∀ (i : Nat) (t : CbThread), s2.cbs[i]? = some t → t.pc ≠ .critical ∧ t.pc ≠ .unlock) ∧
    (∀ i s3, step V argv (.cb i) s2 = some s3 → s3.world.registry = s2.world.registry) := by
  have hinv1 := run_mutexInv V argv before Sys.initial s1 mutexInv_initial h1
  have hl1 : s1.main.locked = true := by simp [hsel, MainPc.locked]
  obtain ⟨hl2, hreg⟩ := run_locked V argv after s1 s2 hinv1 hl1 h2 hnr
  have hinv2 := run_mutexInv V argv after s1 s2 hinv1 h2
  have hmx := hinv2.1 hl2
  simp only [World.registry, Prod.mk.injEq] at hreg
  refine ⟨hl2, hmx, hreg.1, hreg.2.1, hreg.2.2, ?_, ?_⟩
  · intro i t ht
    constructor
    · intro hpc
      have := hinv2.2 i t ht (Or.inl hpc)
      rw [hmx] at this
      cases this
    · intro hpc
      have := hinv2.2 i t ht (Or.inr hpc)
      rw [hmx] at this
      cases this
  · intro i s3 hs3
    exact (step_locked V argv (.cb i) s2 s3 hinv2 hl2 hs3).1

/-- C10, an instance: handle 7 is discovered, `main` selects it and issues the
command; the successful completion arrives while `main` holds the mutex; when
`main` is in its 500 ms sleep the recorded mode of handle 7 is still the 0x02
of discovery and the completion callback stands at its `lock_guard`. -/
theorem main_holds_mutex_until_return_witness :
    run exampleVendor exampleArgv exampleDiscoverySteps Sys.initial = some exampleSelected ∧
    exampleSelected.main = .select true ∧
    run exampleVendor exampleArgv exampleDispatchSteps exampleSelected = some exampleWaiting ∧
    exampleWaiting.main = .sleep_completion ∧
    exampleWaiting.g_lidar_mutex = some .main ∧
    exampleWaiting.world.g_lidar_state_map = exampleSelected.world.g_lidar_state_map ∧
    exampleWaiting.world.g_lidar_state_map = [(7, 2)] ∧
    exampleWaiting.cbs[1]? =
      some { call := .workMode 0 7 (some { ret_code := 0 }) (some 1), pc := .lock } :=
  ⟨by decide, by decide, by decide, by decide,
   (main_holds_mutex_until_return exampleVendor exampleArgv exampleDiscoverySteps
      exampleDispatchSteps exampleSelected exampleWaiting true (by decide) (by decide)
      (by decide) (fun code h => MainPc.noConfusion ((by decide : exampleWaiting.main = .sleep_completion).symm.trans h))).2.1,
   (main_holds_mutex_until_return exampleVendor exampleArgv exampleDiscoverySteps
      exampleDispatchSteps exampleSelected exampleWaiting true (by decide) (by decide)
      (by decide) (fun code h => MainPc.noConfusion ((by decide : exampleWaiting.main = .sleep_completion).symm.trans h))).2.2.2.1,
   by decide, by decide⟩

/-! ## The concurrent program: what `main` does -/

/-- A step of a callback invocation leaves the SDK call log and `mode_value`,
only adds to the output, and either leaves `g_lidar_map` or assigns one of its
entries. -/
theorem stepCb_frame (V : Vendor) (me : Tid) (t t' : CbThread) (w w' : World)
    (m m' : Option Tid) (h : stepCb V me t w m = some (t', w', m')) :
    w'.sdk = w.sdk ∧ w'.mode_value = w.mode_value ∧ (∀ x, x ∈ w.stdout → x ∈ w'.stdout) ∧
    (w'.g_lidar_map = w.g_lidar_map ∨
      ∃ handle sn, w'.g_lidar_map = StdMap.assign w.g_lidar_map handle sn) := by
  unfold stepCb at h
  cases hp : t.pc with
  | entry =>
    simp only [hp] at h
    split at h
    · split at h
      · cases h
        simp
      · split at h
        · split at h
          · cases h
            simp [World.printf]
            exact fun x hx => Or.inl hx
          · cases h
            simp [World.printf]
            exact fun x hx => Or.inl hx
        · cases h
          simp [World.printf]
          exact fun x hx => Or.inl hx
    · split at h
      · cases h
        simp
      · cases h
        simp
  | lock =>
    simp only [hp] at h
    split at h
    · cases h
      simp
    · cases h
  | critical =>
    simp only [hp] at h
    split at h
    · split at h
      · cases h
        simp
      · cases h
        exact ⟨rfl, rfl, fun x hx => hx, Or.inr ⟨_, _, rfl⟩⟩
      · cases h
    · cases h
  | unlock =>
    simp only [hp] at h
    split at h
    · split at h
      · cases h
        simp
      · cases h
        simp [World.printf]
        exact fun x hx => Or.inl hx
      · cases h
    · cases h
  | finished =>
    simp only [hp] at h
    cases h

/-- A step of the SDK or of a callback invocation leaves `main` where it is
and has the effect on the world that `stepCb_frame` describes. -/
theorem step_other_frame (V : Vendor) (argv : List String) (l : Label) (s s' : Sys)
    (hl : l ≠ .main) (h : step V argv l s = some s') :
    s'.main = s.main ∧ s'.world.sdk = s.world.sdk ∧ s'.world.mode_value = s.world.mode_value ∧
    (∀ x, x ∈ s.world.stdout → x ∈ s'.world.stdout) ∧
    (s'.world.g_lidar_map = s.world.g_lidar_map ∨
      ∃ handle sn, s'.world.g_lidar_map = StdMap.assign s.world.g_lidar_map handle sn) := by
  cases l with
  | main => exact absurd rfl hl
  | invoke c =>
    simp only [step] at h
    cases h
    exact ⟨rfl, rfl, rfl, fun x hx => hx, Or.inl rfl⟩
  | cb i =>
    simp only [step] at h
    split at h
    · cases h
    · split at h
      · cases h
      · rename_i hst
        cases h
        exact ⟨rfl, stepCb_frame V (.cb i) _ _ s.world _ s.g_lidar_mutex _ hst⟩

/-- Every step keeps the keys of `g_lidar_map` strictly ascending. -/
theorem step_ordered (V : Vendor) (argv : List String) (l : Label) (s s' : Sys)
    (ho : StdMap.Ordered s.world.g_lidar_map) (h : step V argv l s = some s') :
    StdMap.Ordered s'.world.g_lidar_map := by
  by_cases hl : l = .main
  · subst hl
    simp only [step] at h
    have := (main_step_spec V argv s s' h).2.1
    simp only [World.registry, Prod.mk.injEq] at this
    rw [this.1]
    exact ho
  · rcases (step_other_frame V argv l s s' hl h).2.2.2.2 with h1 | ⟨handle, sn, h1⟩
    · rw [h1]
      exact ho
    · rw [h1]
      exact StdMap.ordered_assign _ _ _ ho

theorem run_ordered (V : Vendor) (argv : List String) (ls : List Label) (s s' : Sys)
    (ho : StdMap.Ordered s.world.g_lidar_map) (h : run V argv ls s = some s') :
    StdMap.Ordered s'.world.g_lidar_map := by
  induction ls generalizing s with
  | nil =>
    simp only [run] at h
    cases h
    exact ho
  | cons l ls ih =>
    simp only [run] at h
    cases hst : step V argv l s with
    | none =>
      simp only [hst] at h
      cases h
    | some s1 =>
      simp only [hst] at h
      exact ih s1 (step_ordered V argv l s s1 ho hst) h

/-- Every step keeps `BeforeSelect`. -/
theorem step_beforeSelect (V : Vendor) (argv : List String) (l : Label) (s s' : Sys)
    (hb : BeforeSelect V argv s) (h : step V argv l s = some s') : BeforeSelect V argv s' := by
  by_cases hl : l = .main
  · subst hl
    simp only [step] at h
    unfold main at h
    unfold BeforeSelect at hb
    cases hm : s.main with
    | start =>
      simp only [hm] at h hb
      split at h
      · cases h
        simp [BeforeSelect]
      · rename_i hargc
        split at h
        · cases h
          simp [BeforeSelect]
        · rename_i turn_on hmode
          split at h
          · cases h
            simp [BeforeSelect]
          · rename_i hinit
            cases h
            simp only [BeforeSelect, Valid]
            refine ⟨⟨by simpa using hargc, hmode, by simpa using hinit⟩, ?_⟩
            simp [banner, World.printf, World.call, hb, workModeCommands]
    | sleep_discovery t =>
      simp only [hm] at h hb
      cases h
      simpa [BeforeSelect] using hb
    | lock t =>
      simp only [hm] at h hb
      split at h
      · cases h
        simpa [BeforeSelect] using hb
      · cases h
    | select t =>
      simp only [hm] at h
      split at h <;> cases h <;> simp [BeforeSelect]
    | dispatch tm i =>
      simp only [hm] at h
      split at h <;> cases h <;> simp [BeforeSelect]
    | sleep_completion =>
      simp only [hm] at h
      cases h
      simp [BeforeSelect]
    | shutdown code =>
      simp only [hm] at h
      cases h
      simp [BeforeSelect]
    | leave code =>
      simp only [hm] at h
      cases h
      simp [BeforeSelect]
    | returned code =>
      simp only [hm] at h
      cases h
  · obtain ⟨h1, h2, -⟩ := step_other_frame V argv l s s' hl h
    unfold BeforeSelect at hb ⊢
    rw [h1, h2]
    exact hb

theorem run_beforeSelect (V : Vendor) (argv : List String) (ls : List Label) (s s' : Sys)
    (hb : BeforeSelect V argv s) (h : run V argv ls s = some s') : BeforeSelect V argv s' := by
  induction ls generalizing s with
  | nil =>
    simp only [run] at h
    cases h
    exact hb
  | cons l ls ih =>
    simp only [run] at h
    cases hst : step V argv l s with
    | none =>
      simp only [hst] at h
      cases h
    | some s1 =>
      simp only [hst] at h
      exact ih s1 (step_beforeSelect V argv l s s1 hb hst) h

theorem beforeSelect_initial (V : Vendor) (argv : List String) :
    BeforeSelect V argv Sys.initial := by
  simp [BeforeSelect, Sys.initial, World.initial]

theorem workModeCommands_snoc_command (sdk : List SdkCall) (handle : Nat)
    (work_mode : LivoxLidarWorkMode) (value : Nat) :
    workModeCommands (sdk ++ [SdkCall.SetLivoxLidarWorkMode handle work_mode value])
      = workModeCommands sdk ++ [(handle, work_mode, value)] := by
  rw [workModeCommands_append]
  rfl

theorem workModeCommands_snoc_uninit (sdk : List SdkCall) :
    workModeCommands (sdk ++ [SdkCall.LivoxLidarSdkUninit]) = workModeCommands sdk := by
  rw [workModeCommands_append]
  simp [workModeCommands]

theorem keys_take_succ (reg : StdMap String) (i : Nat) (pair : Nat × String)
    (h : reg[i]? = some pair) :
    (StdMap.keys reg).take (i + 1) = (StdMap.keys reg).take i ++ [pair.1] := by
  rw [List.take_succ]
  simp [StdMap.keys, h]

theorem keys_take_all (reg : StdMap String) (i : Nat) (h : reg[i]? = none) :
    (StdMap.keys reg).take i = StdMap.keys reg := by
  apply List.take_of_length_le
  have := List.getElem?_eq_none_iff.1 h
  simpa [StdMap.keys] using this

/-- Every step keeps `AfterSelect`. -/
theorem step_afterSelect (V : Vendor) (argv : List String) (l : Label) (s s' : Sys)
    (turn_on : Bool) (reg : StdMap String) (hinv : MutexInv s)
    (ha : AfterSelect turn_on reg s) (h : step V argv l s = some s') :
    AfterSelect turn_on reg s' := by
  by_cases hl : l = .main
  · subst hl
    simp only [step] at h
    unfold main at h
    unfold AfterSelect at ha
    cases hm : s.main with
    | start => simp only [hm] at ha
    | sleep_discovery t => simp only [hm] at ha
    | lock t => simp only [hm] at ha
    | select t =>
      simp only [hm] at h ha
      obtain ⟨ht, hreg, hcmd⟩ := ha
      subst ht
      split at h
      · rename_i hempty
        cases h
        have hnil : reg = [] := by
          rw [← hreg]
          simpa [StdMap.empty] using hempty
        simp [AfterSelect, Outcome, World.printf, hreg, hcmd, hnil]
      · rename_i hempty
        cases h
        have hne : reg ≠ [] := by
          rw [← hreg]
          simpa [StdMap.empty] using hempty
        simp [AfterSelect, World.printf, hreg, hcmd, hne, command]
    | dispatch tm i =>
      simp only [hm] at h ha
      obtain ⟨hreg, hne, htm, hmv, hcmd⟩ := ha
      split at h
      · rename_i pair hpair
        cases h
        rw [hreg] at hpair
        simp only [AfterSelect, World.call, workModeCommands_snoc_command, hcmd,
          keys_take_succ reg i pair hpair, List.map_append, List.map_cons, List.map_nil]
        refine ⟨hreg, hne, htm, hmv, ?_⟩
        rw [htm, hmv]
        rfl
      · rename_i hpair
        cases h
        rw [hreg] at hpair
        simp only [AfterSelect]
        refine ⟨hreg, hne, ?_⟩
        rw [hcmd, keys_take_all reg i hpair]
    | sleep_completion =>
      simp only [hm] at h ha
      obtain ⟨hreg, hne, hcmd⟩ := ha
      cases h
      simp [AfterSelect, Outcome, World.printf, hreg, hne, hcmd]
    | shutdown code =>
      simp only [hm] at h ha
      obtain ⟨hreg, hout⟩ := ha
      cases h
      simp only [AfterSelect, World.call]
      refine ⟨hreg, ?_⟩
      unfold Outcome at hout ⊢
      simp only [workModeCommands_snoc_uninit]
      exact hout
    | leave code =>
      simp only [hm] at h ha
      cases h
      simp only [AfterSelect]
      exact ha.2
    | returned code =>
      simp only [hm] at h
      cases h
  · obtain ⟨h1, h2, h3, h4, -⟩ := step_other_frame V argv l s s' hl h
    have hreg : s.main.locked = true → s'.world.g_lidar_map = s.world.g_lidar_map := by
      intro hlk
      have := (step_locked V argv l s s' hinv hlk h).1
      simp only [World.registry, Prod.mk.injEq] at this
      exact this.1
    have hout : ∀ code, Outcome turn_on reg code s.world → Outcome turn_on reg code s'.world := by
      intro code ho
      unfold Outcome at ho ⊢
      rw [h2]
      rcases ho with ⟨a, b, c, d⟩ | ho
      · exact Or.inl ⟨a, b, c, h4 _ d⟩
      · exact Or.inr ho
    unfold AfterSelect at ha ⊢
    rw [h1]
    cases hm : s.main with
    | start => simp only [hm] at ha
    | sleep_discovery t => simp only [hm] at ha
    | lock t => simp only [hm] at ha
    | select t =>
      simp only [hm] at ha ⊢
      rw [h2, hreg (by simp [hm, MainPc.locked])]
      exact ha
    | dispatch tm i =>
      simp only [hm] at ha ⊢
      rw [h2, h3, hreg (by simp [hm, MainPc.locked])]
      exact ha
    | sleep_completion =>
      simp only [hm] at ha ⊢
      rw [h2, hreg (by simp [hm, MainPc.locked])]
      exact ha
    | shutdown code =>
      simp only [hm] at ha ⊢
      rw [hreg (by simp [hm, MainPc.locked])]
      exact ⟨ha.1, hout code ha.2⟩
    | leave code =>
      simp only [hm] at ha ⊢
      rw [hreg (by simp [hm, MainPc.locked])]
      exact ⟨ha.1, hout code ha.2⟩
    | returned code =>
      simp only [hm] at ha ⊢
      exact hout code ha

theorem run_afterSelect (V : Vendor) (argv : List String) (ls : List Label) (s s' : Sys)
    (turn_on : Bool) (reg : StdMap String) (hinv : MutexInv s)
    (ha : AfterSelect turn_on reg s) (h : run V argv ls s = some s') :
    AfterSelect turn_on reg s' := by
  induction ls generalizing s with
  | nil =>
    simp only [run] at h
    cases h
    exact ha
  | cons l ls ih =>
    simp only [run] at h
    cases hst : step V argv l s with
    | none =>
      simp only [hst] at h
      cases h
    | some s1 =>
      simp only [hst] at h
      exact ih s1 (step_mutexInv V argv l s s1 hinv hst)
        (step_afterSelect V argv l s s1 turn_on reg hinv ha hst) h

theorem run_append (V : Vendor) (argv : List String) (a b : List Label) (s : Sys) :
    run V argv (a ++ b) s = (run V argv a s).bind (run V argv b) := by
  induction a generalizing s with
  | nil => rfl
  | cons l a ih =>
    simp only [List.cons_append, run]
    cases step V argv l s with
    | none => rfl
    | some s1 => exact ih s1

theorem run_snoc (V : Vendor) (argv : List String) (ls : List Label) (l : Label) (s s' : Sys)
    (h : run V argv (ls ++ [l]) s = some s') :
    ∃ s0, run V argv ls s = some s0 ∧ step V argv l s0 = some s' := by
  rw [run_append] at h
  cases h0 : run V argv ls s with
  | none =>
    rw [h0] at h
    cases h
  | some s0 =>
    rw [h0] at h
    refine ⟨s0, rfl, ?_⟩
    simp only [Option.some_bind, run] at h
    cases hst : step V argv l s0 with
    | none =>
      rw [hst] at h
      cases h
    | some s2 =>
      rw [hst] at h
      exact h

theorem run_snoc_of (V : Vendor) (argv : List String) (ls : List Label) (l : Label)
    (s s0 s' : Sys) (h0 : run V argv ls s = some s0) (h : step V argv l s0 = some s') :
    run V argv (ls ++ [l]) s = some s' := by
  rw [run_append, h0]
  simp [run, h]

theorem passedSelect_step (V : Vendor) (argv : List String) (ls : List Label) (l : Label)
    (s s' : Sys) (hp : PassedSelect V argv ls s) (h : step V argv l s = some s') :
    PassedSelect V argv (ls ++ [l]) s' := by
  obtain ⟨before, after, s1, t, hls, h1, hsel, h2⟩ := hp
  refine ⟨before, after ++ [l], s1, t, ?_, h1, hsel, run_snoc_of V argv after l s1 s s' h2 h⟩
  rw [hls, List.append_assoc]

theorem tracked_of_locked (V : Vendor) (argv : List String) (ls : List Label) (s : Sys)
    (hl : s.main.locked = true) : Tracked V argv ls s ↔ PassedSelect V argv ls s := by
  unfold Tracked
  cases hm : s.main <;> simp [hm, MainPc.locked] at hl ⊢

/-- Every run from program start is `Tracked`. -/
theorem run_tracked (V : Vendor) (argv : List String) (ls : List Label) :
    ∀ s, run V argv ls Sys.initial = some s → Tracked V argv ls s := by
  induction ls using List.reverseRecOn with
  | nil =>
    intro s h
    simp only [run] at h
    cases h
    simp [Tracked, Sys.initial]
  | append_singleton ls l ih =>
    intro s' h
    obtain ⟨s, h0, hst⟩ := run_snoc V argv ls l Sys.initial s' h
    have ht := ih s h0
    by_cases hl : l = .main
    · subst hl
      have hst' := hst
      simp only [step] at hst'
      obtain ⟨-, -, hcase⟩ := main_step_spec V argv s s' hst'
      rcases hcase with ⟨h1, h2, -⟩ | ⟨h1, h2, -⟩ | ⟨h1, h2, -⟩ | ⟨h1, ⟨code, h2⟩, -⟩
      · -- before the mutex is taken: `main` stays there or returns `-1`
        unfold main at hst'
        cases hm : s.main with
        | start =>
          simp only [hm] at hst'
          split at hst'
          · rename_i hargc
            cases hst'
            exact Or.inl ⟨rfl, Or.inl hargc⟩
          · split at hst'
            · rename_i hmode
              cases hst'
              exact Or.inl ⟨rfl, Or.inr (Or.inl hmode)⟩
            · split at hst'
              · rename_i hinit
                cases hst'
                exact Or.inl ⟨rfl, Or.inr (Or.inr hinit)⟩
              · cases hst'
                simp [Tracked]
        | sleep_discovery t =>
          simp only [hm] at hst'
          cases hst'
          simp [Tracked]
        | lock t =>
          simp only [hm] at hst'
          split at hst'
          · cases hst'
            simp [MainPc.locked] at h2
          · cases hst'
        | returned code =>
          simp only [hm] at hst'
          cases hst'
        | select t => simp [hm, MainPc.locked] at h1
        | dispatch tm i => simp [hm, MainPc.locked] at h1
        | sleep_completion => simp [hm, MainPc.locked] at h1
        | shutdown code => simp [hm, MainPc.locked] at h1
        | leave code => simp [hm, MainPc.locked] at h1
      · -- the step that takes the mutex
        rw [tracked_of_locked V argv _ s' h2]
        unfold main at hst'
        cases hm : s.main with
        | lock t =>
          simp only [hm] at hst'
          split at hst'
          · cases hst'
            exact ⟨ls ++ [.main], [], _, t, by simp, h, rfl, rfl⟩
          · cases hst'
        | start =>
          simp only [hm] at hst'
          split at hst'
          · cases hst'
            simp [MainPc.locked] at h2
          · split at hst'
            · cases hst'
              simp [MainPc.locked] at h2
            · split at hst'
              · cases hst'
                simp [MainPc.locked] at h2
              · cases hst'
                simp [MainPc.locked] at h2
        | sleep_discovery t =>
          simp only [hm] at hst'
          cases hst'
          simp [MainPc.locked] at h2
        | returned code =>
          simp only [hm] at hst'
          cases hst'
        | select t => simp [hm, MainPc.locked] at h1
        | dispatch tm i => simp [hm, MainPc.locked] at h1
        | sleep_completion => simp [hm, MainPc.locked] at h1
        | shutdown code => simp [hm, MainPc.locked] at h1
        | leave code => simp [hm, MainPc.locked] at h1
      · rw [tracked_of_locked V argv _ s' h2]
        exact passedSelect_step V argv ls .main s s' ((tracked_of_locked V argv ls s h1).1 ht) hst
      · have hp := passedSelect_step V argv ls .main s s'
          ((tracked_of_locked V argv ls s h1).1 ht) hst
        unfold Tracked
        rw [h2]
        exact Or.inr hp
    · have hmain := (step_other_frame V argv l s s' hl hst).1
      unfold Tracked at ht ⊢
      rw [hmain]
      cases hm : s.main with
      | start => trivial
      | sleep_discovery t => trivial
      | lock t => trivial
      | select t =>
        simp only [hm] at ht ⊢
        exact passedSelect_step V argv ls l s s' ht hst
      | dispatch tm i =>
        simp only [hm] at ht ⊢
        exact passedSelect_step V argv ls l s s' ht hst
      | sleep_completion =>
        simp only [hm] at ht ⊢
        exact passedSelect_step V argv ls l s s' ht hst
      | shutdown code =>
        simp only [hm] at ht ⊢
        exact passedSelect_step V argv ls l s s' ht hst
      | leave code =>
        simp only [hm] at ht ⊢
        exact passedSelect_step V argv ls l s s' ht hst
      | returned code =>
        simp only [hm] at ht ⊢
        rcases ht with ht | ht
        · exact Or.inl ht
        · exact Or.inr (passedSelect_step V argv ls l s s' ht hst)

/-! ## The concurrent program: `main` returns -/

/-- A step of a callback invocation keeps its arguments, and it gets to its
`lock_guard` only with the data it writes. -/
theorem stepCb_call (V : Vendor) (me : Tid) (t t' : CbThread) (w w' : World)
    (m m' : Option Tid) (h : stepCb V me t w m = some (t', w', m')) :
    t'.call = t.call ∧ (t.pc = .entry → t'.pc = .lock → t.call.hasData = true) := by
  unfold stepCb at h
  cases hp : t.pc with
  | entry =>
    simp only [hp] at h
    split at h
    · split at h
      · cases h
        simp
      · split at h
        · split at h
          · rename_i heq
            cases h
            simp [heq, Call.hasData]
          · cases h
            simp
        · cases h
          simp
    · split at h
      · cases h
        simp
      · rename_i heq
        cases h
        simp [heq, Call.hasData]
  | lock =>
    simp only [hp] at h
    split at h
    · cases h
      simp
    · cases h
  | critical =>
    simp only [hp] at h
    split at h
    · split at h
      · cases h
        simp
      · cases h
        simp
      · cases h
    · cases h
  | unlock =>
    simp only [hp] at h
    split at h
    · split at h
      · cases h
        simp
      · cases h
        simp
      · cases h
    · cases h
  | finished =>
    simp only [hp] at h
    cases h

theorem ownerInv_initial : OwnerInv Sys.initial := by
  refine ⟨?_, ?_, ?_⟩
  · intro h
    simp [Sys.initial] at h
  · intro i h
    simp [Sys.initial] at h
  · intro i t h
    simp [Sys.initial] at h

/-- Every step keeps `OwnerInv`. -/
theorem step_ownerInv (V : Vendor) (argv : List String) (l : Label) (s s' : Sys)
    (hinv : OwnerInv s) (h : step V argv l s = some s') : OwnerInv s' := by
  obtain ⟨hmain, hown, hdata⟩ := hinv
  cases l with
  | main =>
    simp only [step] at h
    obtain ⟨hcbs, -, hcase⟩ := main_step_spec V argv s s' h
    refine ⟨?_, ?_, ?_⟩
    · intro hmx
      rcases hcase with ⟨h1, h2, h3⟩ | ⟨h1, h2, h3, h4⟩ | ⟨h1, h2, h3⟩ | ⟨h1, h2, h3⟩
      · rw [h3] at hmx
        rw [hmain hmx] at h1
        cases h1
      · exact h2
      · exact h2
      · rw [h3] at hmx
        cases hmx
    · intro i hmx
      rw [hcbs]
      rcases hcase with ⟨h1, h2, h3⟩ | ⟨h1, h2, h3, h4⟩ | ⟨h1, h2, h3⟩ | ⟨h1, h2, h3⟩
      · rw [h3] at hmx
        exact hown i hmx
      · rw [h4] at hmx
        cases hmx
      · rw [h3] at hmx
        exact hown i hmx
      · rw [h3] at hmx
        cases hmx
    · intro i t ht hpc
      rw [hcbs] at ht
      exact hdata i t ht hpc
  | invoke c =>
    simp only [step] at h
    cases h
    refine ⟨hmain, ?_, ?_⟩
    · intro i hmx
      obtain ⟨t, ht, hpc⟩ := hown i hmx
      refine ⟨t, ?_, hpc⟩
      have hlt : i < s.cbs.length := by
        rcases List.getElem?_eq_some.1 ht with ⟨hlt, -⟩
        exact hlt
      show (s.cbs ++ [{ call := c, pc := CbPc.entry }])[i]? = some t
      rw [List.getElem?_append_left hlt]
      exact ht
    · intro i t ht hpc
      simp only [List.getElem?_append] at ht
      split at ht
      · exact hdata i t ht hpc
      · have hlen : (i - s.cbs.length) = 0 ∨ 0 < (i - s.cbs.length) := by omega
        rcases hlen with h0 | h0
        · rw [h0] at ht
          simp at ht
          subst ht
          rcases hpc with hpc | hpc | hpc <;> cases hpc
        · have : ([{ call := c, pc := CbPc.entry }] : List CbThread)[i - s.cbs.length]?
              = none := by
            apply List.getElem?_eq_none
            simp
            omega
          rw [this] at ht
          cases ht
  | cb i =>
    simp only [step] at h
    cases hti : s.cbs[i]? with
    | none =>
      simp only [hti] at h
      cases h
    | some t =>
      simp only [hti] at h
      cases hst : stepCb V (.cb i) t s.world s.g_lidar_mutex with
      | none =>
        simp only [hst] at h
        cases h
      | some r =>
        obtain ⟨t', w', m'⟩ := r
        simp only [hst] at h
        cases h
        have hilt : i < s.cbs.length := by
          rcases List.getElem?_eq_some.1 hti with ⟨hlt, -⟩
          exact hlt
        have hself : (s.cbs.set i t')[i]? = some t' := List.getElem?_set_self hilt
        have hother : ∀ j, j ≠ i → (s.cbs.set i t')[j]? = s.cbs[j]? := by
          intro j hne
          exact List.getElem?_set_ne (Ne.symm hne)
        obtain ⟨hcall, hentry⟩ := stepCb_call V (.cb i) t t' s.world w' s.g_lidar_mutex m' hst
        have hspec := stepCb_spec V (.cb i) t t' s.world w' s.g_lidar_mutex m' hst
        refine ⟨?_, ?_, ?_⟩
        · intro hmx
          show s.main.locked = true
          rcases hspec with ⟨h1, h2, h3, -⟩ | ⟨h1, h2, h3, h4, -⟩ | ⟨h1, h2, h3, h4⟩ |
            ⟨h1, h2, h3, h4, -⟩
          · subst h3
            exact hmain hmx
          · subst h4
            cases hmx
          · subst h4
            cases hmx
          · subst h4
            cases hmx
        · intro j hmx
          show ∃ u, (s.cbs.set i t')[j]? = some u ∧ (u.pc = .critical ∨ u.pc = .unlock)
          rcases hspec with ⟨h1, h2, h3, -⟩ | ⟨h1, h2, h3, h4, -⟩ | ⟨h1, h2, h3, h4⟩ |
            ⟨h1, h2, h3, h4, -⟩
          · subst h3
            obtain ⟨u, hu, hpc⟩ := hown j hmx
            have hji : j ≠ i := by
              intro hji
              subst hji
              rw [hti] at hu
              cases hu
              rcases hpc with hpc | hpc <;> rw [h1] at hpc <;> cases hpc
            exact ⟨u, by rw [hother j hji]; exact hu, hpc⟩
          · subst h4
            cases hmx
            exact ⟨t', hself, Or.inl h2⟩
          · subst h4
            cases hmx
            exact ⟨t', hself, Or.inr h2⟩
          · subst h4
            cases hmx
        · intro j u hu hpc
          show u.call.hasData = true
          by_cases hji : j = i
          · subst hji
            have hu' : (s.cbs.set j t')[j]? = some u := hu
            rw [hself] at hu'
            cases hu'
            rw [hcall]
            by_cases he : t.pc = .entry
            · rcases hspec with ⟨h1, h2, -⟩ | ⟨h1, -⟩ | ⟨h1, -⟩ | ⟨h1, -⟩
              · rcases h2 with h2 | h2
                · exact hentry he h2
                · rcases hpc with hpc | hpc | hpc <;> rw [h2] at hpc <;> cases hpc
              · rw [he] at h1
                cases h1
              · rw [he] at h1
                cases h1
              · rw [he] at h1
                cases h1
            · apply hdata j t hti
              rcases hspec with ⟨h1, -⟩ | ⟨h1, -⟩ | ⟨h1, -⟩ | ⟨h1, -⟩
              · exact absurd h1 he
              · exact Or.inl h1
              · exact Or.inr (Or.inl h1)
              · exact Or.inr (Or.inr h1)
          · have hu' : (s.cbs.set i t')[j]? = some u := hu
            rw [hother j hji] at hu'
            exact hdata j u hu' hpc

theorem run_ownerInv (V : Vendor) (argv : List String) (ls : List Label) (s s' : Sys)
    (hinv : OwnerInv s) (h : run V argv ls s = some s') : OwnerInv s' := by
  induction ls generalizing s with
  | nil =>
    simp only [run] at h
    cases h
    exact hinv
  | cons l ls ih =>
    simp only [run] at h
    cases hst : step V argv l s with
    | none =>
      simp only [hst] at h
      cases h
    | some s1 =>
      simp only [hst] at h
      exact ih s1 (step_ownerInv V argv l s s1 hinv hst) h

theorem canReturn_step (V : Vendor) (argv : List String) (l : Label) (s s1 : Sys)
    (h : step V argv l s = some s1) (hc : CanReturn V argv s1) : CanReturn V argv s := by
  obtain ⟨ls, s', code, hrun, hret⟩ := hc
  refine ⟨l :: ls, s', code, ?_, hret⟩
  simp only [run, h]
  exact hrun

theorem canReturn_run (V : Vendor) (argv : List String) (ls : List Label) (s s1 : Sys)
    (h : run V argv ls s = some s1) (hc : CanReturn V argv s1) : CanReturn V argv s := by
  obtain ⟨ls', s', code, hrun, hret⟩ := hc
  refine ⟨ls ++ ls', s', code, ?_, hret⟩
  rw [run_append, h]
  exact hrun

theorem canReturn_returned (V : Vendor) (argv : List String) (s : Sys) (code : Int)
    (h : s.main = .returned code) : CanReturn V argv s :=
  ⟨[], s, code, rfl, h⟩

theorem canReturn_leave (V : Vendor) (argv : List String) (s : Sys) (code : Int)
    (h : s.main = .leave code) : CanReturn V argv s := by
  apply canReturn_step V argv .main s { s with g_lidar_mutex := none, main := .returned code }
  · simp [step, main, h]
  · exact canReturn_returned V argv _ code rfl

theorem canReturn_shutdown (V : Vendor) (argv : List String) (s : Sys) (code : Int)
    (h : s.main = .shutdown code) : CanReturn V argv s := by
  apply canReturn_step V argv .main s
    { s with world := s.world.call .LivoxLidarSdkUninit, main := .leave code }
  · simp [step, main, h]
  · exact canReturn_leave V argv _ code rfl

theorem canReturn_sleep_completion (V : Vendor) (argv : List String) (s : Sys)
    (h : s.main = .sleep_completion) : CanReturn V argv s := by
  apply canReturn_step V argv .main s
    { s with world := s.world.printf "\nDone!\n", main := .shutdown 0 }
  · simp [step, main, h]
  · exact canReturn_shutdown V argv _ 0 rfl

theorem canReturn_dispatch (V : Vendor) (argv : List String) (n : Nat) :
    ∀ (s : Sys) (target_mode : LivoxLidarWorkMode) (i : Nat),
      s.main = .dispatch target_mode i → s.world.g_lidar_map.length - i = n →
      CanReturn V argv s := by
  induction n with
  | zero =>
    intro s tm i h hn
    have hnone : s.world.g_lidar_map[i]? = none := by
      apply List.getElem?_eq_none
      omega
    apply canReturn_step V argv .main s { s with main := .sleep_completion }
    · simp [step, main, h, hnone]
    · exact canReturn_sleep_completion V argv _ rfl
  | succ n ih =>
    intro s tm i h hn
    have hlt : i < s.world.g_lidar_map.length := by omega
    have hsome : s.world.g_lidar_map[i]? = some (s.world.g_lidar_map[i]) :=
      List.getElem?_eq_getElem hlt
    apply canReturn_step V argv .main s
      { s with
        world := s.world.call
          (.SetLivoxLidarWorkMode (s.world.g_lidar_map[i]).1 tm s.world.mode_value)
        main := .dispatch tm (i + 1) }
    · simp [step, main, h, hsome]
    · apply ih _ tm (i + 1) rfl
      simp only [World.call]
      omega

theorem canReturn_select (V : Vendor) (argv : List String) (s : Sys) (turn_on : Bool)
    (h : s.main = .select turn_on) : CanReturn V argv s := by
  cases hst : step V argv .main s with
  | none =>
    simp only [step, main, h] at hst
    split at hst <;> cases hst
  | some s1 =>
    apply canReturn_step V argv .main s s1 hst
    simp only [step, main, h] at hst
    split at hst
    · cases hst
      exact canReturn_shutdown V argv _ (-1) rfl
    · cases hst
      exact canReturn_dispatch V argv _ _ _ 0 rfl rfl

/-- A callback invocation that holds the mutex and has its data can take its
next step. -/
theorem stepCb_enabled (V : Vendor) (me : Tid) (t : CbThread) (w : World)
    (hpc : t.pc = .critical ∨ t.pc = .unlock) (hd : t.call.hasData = true) :
    ∃ r, stepCb V me t w (some me) = some r := by
  unfold stepCb
  rcases hpc with hpc | hpc
  · rw [hpc]
    cases hc : t.call with
    | workMode status handle response client_data =>
      cases client_data with
      | none => simp [hc, Call.hasData] at hd
      | some mode => simp
    | infoChange handle info client_data =>
      cases info with
      | none => simp [hc, Call.hasData] at hd
      | some info => simp
  · rw [hpc]
    cases hc : t.call with
    | workMode status handle response client_data => simp
    | infoChange handle info client_data =>
      cases info with
      | none => simp [hc, Call.hasData] at hd
      | some info => simp

/-- A callback invocation that holds the mutex releases it within two of its
own steps, `main` staying where it is. -/
theorem release (V : Vendor) (argv : List String) (s : Sys) (i : Nat) (hinv : OwnerInv s)
    (hmx : s.g_lidar_mutex = some (.cb i)) :
    ∃ (ls : List Label) (s' : Sys),
      run V argv ls s = some s' ∧ s'.g_lidar_mutex = none ∧ s'.main = s.main := by
  obtain ⟨t, ht, hpc⟩ := hinv.2.1 i hmx
  have hd := hinv.2.2 i t ht (Or.inr hpc)
  have hilt : i < s.cbs.length := by
    rcases List.getElem?_eq_some.1 ht with ⟨hlt, -⟩
    exact hlt
  -- the step of invocation `i` from `s`
  obtain ⟨⟨t1, w1, m1⟩, hst⟩ := stepCb_enabled V (.cb i) t s.world hpc hd
  have hstep1 : step V argv (.cb i) s
      = some { world := w1, g_lidar_mutex := m1, main := s.main, cbs := s.cbs.set i t1 } := by
    simp only [step, ht, hmx, hst]
  have hspec1 := stepCb_spec V (.cb i) t t1 s.world w1 (some (.cb i)) m1 hst
  have hcall1 := (stepCb_call V (.cb i) t t1 s.world w1 (some (.cb i)) m1 hst).1
  rcases hpc with hpc | hpc
  · -- in the critical section: write, then release
    have h1 : t1.pc = .unlock ∧ m1 = some (.cb i) := by
      rcases hspec1 with ⟨h, -⟩ | ⟨h, -⟩ | ⟨-, h2, -, h4⟩ | ⟨h, -⟩
      · rw [hpc] at h
        cases h
      · rw [hpc] at h
        cases h
      · exact ⟨h2, h4⟩
      · rw [hpc] at h
        cases h
    obtain ⟨h1pc, h1m⟩ := h1
    subst h1m
    have hd1 : t1.call.hasData = true := by rw [hcall1]; exact hd
    obtain ⟨⟨t2, w2, m2⟩, hst2⟩ := stepCb_enabled V (.cb i) t1 w1 (Or.inr h1pc) hd1
    have hspec2 := stepCb_spec V (.cb i) t1 t2 w1 w2 (some (.cb i)) m2 hst2
    have h2m : m2 = none := by
      rcases hspec2 with ⟨h, -⟩ | ⟨h, -⟩ | ⟨h, -⟩ | ⟨-, -, -, h4, -⟩
      · rw [h1pc] at h
        cases h
      · rw [h1pc] at h
        cases h
      · rw [h1pc] at h
        cases h
      · exact h4
    subst h2m
    refine ⟨[.cb i, .cb i],
      { world := w2, g_lidar_mutex := none, main := s.main,
        cbs := (s.cbs.set i t1).set i t2 }, ?_, rfl, rfl⟩
    have hget : (s.cbs.set i t1)[i]? = some t1 := List.getElem?_set_self hilt
    have hstep2 : step V argv (.cb i)
        { world := w1, g_lidar_mutex := some (.cb i), main := s.main, cbs := s.cbs.set i t1 }
        = some { world := w2, g_lidar_mutex := none, main := s.main,
                 cbs := (s.cbs.set i t1).set i t2 } := by
      simp only [step, hget, hst2]
    simp only [run]
    rw [hstep1]
    simp only []
    rw [hstep2]
  · -- past the writes: release
    have h1m : m1 = none := by
      rcases hspec1 with ⟨h, -⟩ | ⟨h, -⟩ | ⟨h, -⟩ | ⟨-, -, -, h4, -⟩
      · rw [hpc] at h
        cases h
      · rw [hpc] at h
        cases h
      · rw [hpc] at h
        cases h
      · exact h4
    subst h1m
    refine ⟨[.cb i],
      { world := w1, g_lidar_mutex := none, main := s.main, cbs := s.cbs.set i t1 },
      ?_, rfl, rfl⟩
    simp only [run]
    rw [hstep1]

theorem canReturn_lock (V : Vendor) (argv : List String) (s : Sys) (turn_on : Bool)
    (hinv : OwnerInv s) (h : s.main = .lock turn_on) : CanReturn V argv s := by
  have hfree : ∀ s0 : Sys, s0.main = .lock turn_on → s0.g_lidar_mutex = none →
      CanReturn V argv s0 := by
    intro s0 h0 hm0
    apply canReturn_step V argv .main s0
      { s0 with g_lidar_mutex := some .main, main := .select turn_on }
    · simp [step, main, h0, hm0]
    · exact canReturn_select V argv _ turn_on rfl
  cases hmx : s.g_lidar_mutex with
  | none => exact hfree s h hmx
  | some tid =>
    cases tid with
    | main =>
      have := hinv.1 hmx
      simp [h, MainPc.locked] at this
    | cb i =>
      obtain ⟨ls, s', hrun, hm', hmain'⟩ := release V argv s i hinv hmx
      exact canReturn_run V argv ls s s' hrun (hfree s' (hmain'.trans h) hm')

/-- From every state that satisfies `OwnerInv`, some continuation brings
`main` to its return. -/
theorem canReturn_of_ownerInv (V : Vendor) (argv : List String) (s : Sys)
    (hinv : OwnerInv s) : CanReturn V argv s := by
  cases hm : s.main with
  | returned code => exact canReturn_returned V argv s code hm
  | select t => exact canReturn_select V argv s t hm
  | dispatch tm i => exact canReturn_dispatch V argv _ s tm i hm rfl
  | sleep_completion => exact canReturn_sleep_completion V argv s hm
  | shutdown code => exact canReturn_shutdown V argv s code hm
  | leave code => exact canReturn_leave V argv s code hm
  | lock t => exact canReturn_lock V argv s t hinv hm
  | sleep_discovery t =>
    have hst : step V argv .main s = some { s with main := .lock t } := by
      simp [step, main, hm]
    exact canReturn_step V argv .main s _ hst
      (canReturn_lock V argv _ t (step_ownerInv V argv .main s _ hinv hst) rfl)
  | start =>
    cases hst : step V argv .main s with
    | none =>
      simp only [step, main, hm] at hst
      split at hst
      · cases hst
      · split at hst
        · cases hst
        · split at hst <;> cases hst
    | some s1 =>
      apply canReturn_step V argv .main s s1 hst
      have hinv1 := step_ownerInv V argv .main s s1 hinv hst
      simp only [step, main, hm] at hst
      split at hst
      · cases hst
        exact canReturn_returned V argv _ (-1) rfl
      · split at hst
        · cases hst
          exact canReturn_returned V argv _ (-1) rfl
        · split at hst
          · cases hst
            exact canReturn_returned V argv _ (-1) rfl
          · rename_i t _ _
            cases hst
            have hst2 : step V argv .main
                { s with
                  world := banner ((s.world.call (.LivoxLidarSdkInit (argv.getD 1 ""))).call
                    .SetLivoxLidarInfoChangeCallback)
                  main := .sleep_discovery t }
                = some { s with
                  world := banner ((s.world.call (.LivoxLidarSdkInit (argv.getD 1 ""))).call
                    .SetLivoxLidarInfoChangeCallback)
                  main := .lock t } := by
              simp [step, main]
            exact canReturn_step V argv .main _ _ hst2
              (canReturn_lock V argv _ t (step_ownerInv V argv .main _ _ hinv1 hst2) rfl)

/-! ## The concurrent program: exit code and commands -/

/-- At the selection step of a run from program start: the arguments were
accepted, no command has been issued, and the invariants hold. -/
theorem at_select (V : Vendor) (argv : List String) (before : List Label) (s1 : Sys)
    (turn_on : Bool) (h1 : run V argv before Sys.initial = some s1)
    (hsel : s1.main = .select turn_on) :
    Valid V argv turn_on ∧ MutexInv s1 ∧ OwnerInv s1 ∧
    StdMap.Ordered s1.world.g_lidar_map ∧ AfterSelect turn_on s1.world.g_lidar_map s1 := by
  have hb := run_beforeSelect V argv before Sys.initial s1 (beforeSelect_initial V argv) h1
  unfold BeforeSelect at hb
  simp only [hsel] at hb
  refine ⟨hb.1, run_mutexInv V argv before Sys.initial s1 mutexInv_initial h1,
    run_ownerInv V argv before Sys.initial s1 ownerInv_initial h1,
    run_ordered V argv before Sys.initial s1 ordered_initial h1, ?_⟩
  unfold AfterSelect
  rw [hsel]
  exact ⟨rfl, rfl, hb.2⟩

/-- How a run that went through the selection step ends. -/
theorem outcome_of_returned (V : Vendor) (argv : List String) (before after : List Label)
    (s1 s2 : Sys) (turn_on : Bool) (code : Int)
    (h1 : run V argv before Sys.initial = some s1) (hsel : s1.main = .select turn_on)
    (h2 : run V argv after s1 = some s2) (hret : s2.main = .returned code) :
    Outcome turn_on s1.world.g_lidar_map code s2.world := by
  obtain ⟨-, hmi, -, -, ha⟩ := at_select V argv before s1 turn_on h1 hsel
  have := run_afterSelect V argv after s1 s2 turn_on s1.world.g_lidar_map hmi ha h2
  unfold AfterSelect at this
  simpa only [hret] using this

theorem valid_not_rejected (V : Vendor) (argv : List String) (turn_on : Bool)
    (hv : Valid V argv turn_on) (hr : Rejected V argv) : False := by
  obtain ⟨h1, h2, h3⟩ := hv
  rcases hr with h | h | h
  · exact h h1
  · rw [h2] at h
    cases h
  · rw [h3] at h
    cases h

/-- C1. In every run of the program from its start, with the SDK invoking
callbacks of any kind at any time: when `main` has returned, its return value
is non-zero exactly if the argument count is not 3, or the mode token
`argv[2]` is neither "on" nor "off", or `LivoxLidarSdkInit(argv[1])` failed,
or `g_lidar_map` was empty when `main` stood at the selection step (line 101,
after the discovery sleep, holding the mutex); the return value is then `-1`,
and it is `0` in every other case. Moreover every run can be continued to a
state in which `main` has returned. -/
theorem main_exit_code (V : Vendor) (argv : List String) (ls : List Label) (s : Sys)
    (hrun : run V argv ls Sys.initial = some s) :
    (∀ code, s.main = .returned code →
      (code = 0 ∨ code = -1) ∧
      (code ≠ 0 ↔
        (argv.length ≠ 3 ∨ (argv.getD 2 "" ≠ "on" ∧ argv.getD 2 "" ≠ "off") ∨
          V.LivoxLidarSdkInit (argv.getD 1 "") = false ∨
          ∃ (before after : List Label) (s1 : Sys) (turn_on : Bool),
            ls = before ++ after ∧ run V argv before Sys.initial = some s1 ∧
            s1.main = .select turn_on ∧ s1.world.g_lidar_map = []))) ∧
    (∃ (ls' : List Label) (s' : Sys) (code : Int),
      run V argv ls' s = some s' ∧ s'.main = .returned code) := by
  refine ⟨?_, canReturn_of_ownerInv V argv s
    (run_ownerInv V argv ls Sys.initial s ownerInv_initial hrun)⟩
  intro code hret
  have ht := run_tracked V argv ls s hrun
  unfold Tracked at ht
  simp only [hret] at ht
  have hrej : Rejected V argv ↔
      (argv.length ≠ 3 ∨ (argv.getD 2 "" ≠ "on" ∧ argv.getD 2 "" ≠ "off") ∨
        V.LivoxLidarSdkInit (argv.getD 1 "") = false) := by
    unfold Rejected
    rw [parseMode_eq_none]
  refine ⟨?_, ?_, ?_⟩
  · rcases ht with ⟨hc, -⟩ | ⟨before, after, s1, t, hls, h1, hsel, h2⟩
    · exact Or.inr hc
    · rcases outcome_of_returned V argv before after s1 s t code h1 hsel h2 hret with
        ⟨hc, -⟩ | ⟨hc, -⟩
      · exact Or.inr hc
      · exact Or.inl hc
  · intro hne
    rcases ht with ⟨-, hr⟩ | ⟨before, after, s1, t, hls, h1, hsel, h2⟩
    · rcases hrej.1 hr with h | h | h
      · exact Or.inl h
      · exact Or.inr (Or.inl h)
      · exact Or.inr (Or.inr (Or.inl h))
    · rcases outcome_of_returned V argv before after s1 s t code h1 hsel h2 hret with
        ⟨-, hempty, -⟩ | ⟨hc, -⟩
      · exact Or.inr (Or.inr (Or.inr ⟨before, after, s1, t, hls, h1, hsel, hempty⟩))
      · exact absurd hc hne
  · intro hR
    have hcases : Rejected V argv ∨
        ∃ (before after : List Label) (s1 : Sys) (turn_on : Bool),
          ls = before ++ after ∧ run V argv before Sys.initial = some s1 ∧
          s1.main = .select turn_on ∧ s1.world.g_lidar_map = [] := by
      rcases hR with h | h | h | h
      · exact Or.inl (hrej.2 (Or.inl h))
      · exact Or.inl (hrej.2 (Or.inr (Or.inl h)))
      · exact Or.inl (hrej.2 (Or.inr (Or.inr h)))
      · exact Or.inr h
    rcases hcases with hr | ⟨before, after, s1, t, hls, h1, hsel, hempty⟩
    · rcases ht with ⟨hc, -⟩ | ⟨before, after, s1, t, hls, h1, hsel, h2⟩
      · rw [hc]
        decide
      · exact absurd hr (fun hr =>
          valid_not_rejected V argv t (at_select V argv before s1 t h1 hsel).1 hr)
    · have h2 : run V argv after s1 = some s := by
        rw [hls, run_append, h1] at hrun
        exact hrun
      rcases outcome_of_returned V argv before after s1 s t code h1 hsel h2 hret with
        ⟨hc, -⟩ | ⟨-, hne, -⟩
      · rw [hc]
        decide
      · exact absurd hempty hne

/-- C1, an instance: `prog config.json on`, handle 7 discovered, its command
issued; `main` returns `0`, and none of the four conditions holds. -/
theorem main_exit_code_witness :
    run exampleVendor exampleArgv exampleFullSteps Sys.initial = some exampleReturned ∧
    exampleReturned.main = .returned 0 ∧
    ¬ (exampleArgv.length ≠ 3 ∨
        (exampleArgv.getD 2 "" ≠ "on" ∧ exampleArgv.getD 2 "" ≠ "off") ∨
        exampleVendor.LivoxLidarSdkInit (exampleArgv.getD 1 "") = false ∨
        ∃ (before after : List Label) (s1 : Sys) (turn_on : Bool),
          exampleFullSteps = before ++ after ∧
          run exampleVendor exampleArgv before Sys.initial = some s1 ∧
          s1.main = .select turn_on ∧ s1.world.g_lidar_map = []) :=
  ⟨by decide, by decide, fun h =>
    (((main_exit_code exampleVendor exampleArgv exampleFullSteps exampleReturned
      (by decide)).1 0 (by decide)).2.2 h) rfl⟩

/-- A callback invocation that starts with the mutex free and is not
interrupted finishes within four steps, has released the mutex, and has
had the effect of the callback run as a function. -/
theorem stepsCb_eq_run (V : Vendor) (me : Tid) (c : Call) (w : World) :
    stepsCb V me 4 ({ call := c, pc := .entry }, w, none)
      = ({ call := c, pc := .finished }, c.run V w, none) := by
  cases c with
  | workMode status handle response client_data =>
    cases response with
    | none => simp [stepsCb, stepCb, Call.run, WorkModeCallback]
    | some r =>
      by_cases h : status = V.kLivoxLidarStatusSuccess ∧ r.ret_code = 0
      · cases client_data with
        | none => simp [stepsCb, stepCb, Call.run, WorkModeCallback, h]
        | some mode => simp [stepsCb, stepCb, Call.run, WorkModeCallback, h, World.printf]
      · simp [stepsCb, stepCb, Call.run, WorkModeCallback, h]
  | infoChange handle info client_data =>
    cases info with
    | none => simp [stepsCb, stepCb, Call.run, LidarInfoChangeCallback]
    | some info =>
      simp [stepsCb, stepCb, Call.run, LidarInfoChangeCallback, World.printf]

end Livox
